import Mathlib

/-!
Verification of the analytics / aggregation layer of the TraderMindset
storage component (src/server/storage.ts).  The file embeds both storage
backends, `MemStorage` and `DatabaseStorage`, over one shared record-store
state, and proves (or refutes) the frozen claims about the aggregation
functions `getHabitsWithStats`, `getWeeklyProgress`, `getMonthlyStats` and
`getTradingStats`.

Modelling conventions
* Dates.  The source uses canonical `YYYY-MM-DD` strings whose lexical
  order is chronological, and steps days with JavaScript `Date` arithmetic
  (assumed to run in UTC, so `toISOString` round-trips the calendar day).
  We model a date as its proleptic-Gregorian day number (an integer);
  `dateToZ y m d` converts a calendar date to that number, and stepping a
  `Date` by one day is stepping the integer by one.
* Numbers.  JavaScript numbers are modelled by `JSNum`, rationals extended
  with `nan` and the two infinities, with the IEEE-754 rules for the
  operations the source uses (`parseFloat` of a non-numeric string is
  `nan`, `x / 0` is an infinity or `nan`, comparisons with `nan` are
  false).  Where the source guards a division so the operands are plainly
  finite (habit completion rates), the result is modelled directly as an
  integer produced by `jsRound`.
* Maps.  The in-memory `Map`s and the relational tables are both modelled
  as lists of records; `Map.get` / single-row selects become `List.find?`.
  The upsert discipline keeps at most one completion per (habit, date)
  key; where a proof needs that invariant it is an explicit hypothesis
  (`completionsKeyUnique`).
* Record fields never read by the embedded operations (instrument, side,
  exit price, tags, setup, mistakes, lessons, rating, and the synthetic
  row ids of completions) are omitted from the record types.
* `DatabaseStorage.getHabits` additionally orders rows by name and
  `getTradeReviews` orders by descending date; every aggregate value
  proved below is insensitive to the order of those lists, so the
  orderings are not modelled.
-/

/-! ### JavaScript numbers -/

/-- A JavaScript number as the source observes it: a finite value
(modelled as a rational), `NaN`, or one of the infinities. -/
inductive JSNum where
  | nan : JSNum
  | posInf : JSNum
  | negInf : JSNum
  | num : ℚ → JSNum
deriving DecidableEq, Repr

/-- Math.round: round half toward positive infinity. -/
def jsRound (q : ℚ) : ℤ := ⌊q + 1/2⌋

/-- Rounding to two decimal places, the source's
`Math.round(x * 100) / 100` at the rational level. -/
def round2q (q : ℚ) : ℚ := (jsRound (q * 100) : ℚ) / 100

/-- IEEE addition on `JSNum`. -/
def JSNum.add : JSNum → JSNum → JSNum
  | nan, _ => nan
  | _, nan => nan
  | posInf, negInf => nan
  | negInf, posInf => nan
  | posInf, _ => posInf
  | _, posInf => posInf
  | negInf, _ => negInf
  | _, negInf => negInf
  | num a, num b => num (a + b)

/-- IEEE multiplication on `JSNum`. -/
def JSNum.mul : JSNum → JSNum → JSNum
  | nan, _ => nan
  | _, nan => nan
  | num a, num b => num (a * b)
  | posInf, posInf => posInf
  | posInf, negInf => negInf
  | negInf, posInf => negInf
  | negInf, negInf => posInf
  | posInf, num b => if 0 < b then posInf else if b < 0 then negInf else nan
  | num a, posInf => if 0 < a then posInf else if a < 0 then negInf else nan
  | negInf, num b => if 0 < b then negInf else if b < 0 then posInf else nan
  | num a, negInf => if 0 < a then negInf else if a < 0 then posInf else nan

/-- IEEE division on `JSNum` (division by zero yields an infinity or
`nan`, never an exception — this is where an unguarded source division
would surface). -/
def JSNum.div : JSNum → JSNum → JSNum
  | nan, _ => nan
  | _, nan => nan
  | posInf, posInf => nan
  | posInf, negInf => nan
  | negInf, posInf => nan
  | negInf, negInf => nan
  | posInf, num b => if 0 ≤ b then posInf else negInf
  | negInf, num b => if 0 ≤ b then negInf else posInf
  | num _, posInf => num 0
  | num _, negInf => num 0
  | num a, num b =>
      if b ≠ 0 then num (a / b)
      else if 0 < a then posInf else if a < 0 then negInf else nan

/-- IEEE strict less-than on `JSNum` (false whenever `nan` is involved). -/
def JSNum.lt : JSNum → JSNum → Bool
  | nan, _ => false
  | _, nan => false
  | num a, num b => decide (a < b)
  | negInf, negInf => false
  | negInf, _ => true
  | posInf, _ => false
  | num _, posInf => true
  | num _, negInf => false

/-- Math.abs on `JSNum`. -/
def JSNum.abs : JSNum → JSNum
  | nan => nan
  | posInf => posInf
  | negInf => posInf
  | num a => num |a|

/-- Math.round on `JSNum` (`NaN` and the infinities are fixed points). -/
def JSNum.round : JSNum → JSNum
  | nan => nan
  | posInf => posInf
  | negInf => negInf
  | num a => num (jsRound a : ℤ)

/-- The source's two-decimal rounding `Math.round(x * 100) / 100`. -/
def JSNum.round2 (x : JSNum) : JSNum := (x.mul (num 100)).round.div (num 100)

/-- Whether a `JSNum` is `NaN` (the source's `isNaN`). -/
def JSNum.isNan : JSNum → Bool
  | nan => true
  | _ => false

/-! ### Calendar arithmetic -/

/-- Gregorian leap-year rule, as implemented by the JavaScript `Date`. -/
def isLeapYear (y : ℕ) : Bool :=
  (y % 4 = 0 && y % 100 ≠ 0) || y % 400 = 0

/-- Number of days in 1-based month `m` of year `y`
(the source's `new Date(year, month, 0).getDate()`). -/
def daysInMonth (y m : ℕ) : ℕ :=
  if m = 2 then (if isLeapYear y then 29 else 28)
  else if m = 4 ∨ m = 6 ∨ m = 9 ∨ m = 11 then 30
  else 31

/-- Days of year `y` that precede 1-based month `m`. -/
def monthOffsetDays (y m : ℕ) : ℕ :=
  (match m with
   | 1 => 0 | 2 => 31 | 3 => 59 | 4 => 90 | 5 => 120 | 6 => 151
   | 7 => 181 | 8 => 212 | 9 => 243 | 10 => 273 | 11 => 304 | _ => 334)
  + (if 3 ≤ m ∧ isLeapYear y then 1 else 0)

/-- Leap years among 0, 1, ..., y-1 (proleptic Gregorian). -/
def leapCount (y : ℕ) : ℕ := (y + 3) / 4 + (y + 399) / 400 - (y + 99) / 100

/-- Day number of the first day of year `y`. -/
def daysBeforeYear (y : ℕ) : ℕ := 365 * y + leapCount y

/-- Day number of the calendar date `y`-`m`-`d` (1-based month and day). -/
def dateToNat (y m d : ℕ) : ℕ := daysBeforeYear y + monthOffsetDays y m + (d - 1)

/-- Day number of a calendar date, as an integer. -/
def dateToZ (y m d : ℕ) : ℤ := (dateToNat y m d : ℤ)

/-- The inclusive ascending list of days from `a` to `b`; empty when
`b < a`.  This is the source's `for (let d = start; d <= end;
d.setDate(d.getDate() + 1))` loop. -/
def dayRange (a b : ℤ) : List ℤ :=
  (List.range (b + 1 - a).toNat).map (fun i : ℕ => a + (i : ℤ))

/-- The days of 1-based month `m` of year `y`. -/
def monthDates (y m : ℕ) : List ℤ :=
  dayRange (dateToZ y m 1) (dateToZ y m (daysInMonth y m))

/-! ### Record types (modelled from the spec)

The record shapes live in the repository's `@shared/schema` module, which
is not part of the examined sources.  They are modelled from the spec's
data model (section 3), keeping exactly the fields the storage layer
reads. -/

/-- Modelled from the spec: a habit — id, name, active flag (description
and category, never read by the aggregations, are omitted).  Soft-deleted
by flipping `isActive` to false. -/
structure Habit where
  id : ℕ
  name : String
  isActive : Bool
deriving DecidableEq, Repr

/-- Modelled from the spec: a habit-completion record keyed by
(habitId, date) with a boolean completed flag. -/
structure HabitCompletion where
  habitId : ℕ
  date : ℤ
  completed : Bool
deriving DecidableEq, Repr

/-- The profit-and-loss field of a trade review as the aggregations
observe it: `absent` is a null or empty (falsy) value, `nonNumeric` is a
truthy string `parseFloat` cannot parse, `num q` is a truthy string
parsing to the finite value `q`. -/
inductive PnlField where
  | absent : PnlField
  | nonNumeric : PnlField
  | num : ℚ → PnlField
deriving DecidableEq, Repr

/-- Modelled from the spec: a trade review — id, date, optional PnL
(decimal string) and optional emotional-state label; the remaining fields
are never read by the aggregations and are omitted. -/
structure TradeReview where
  id : ℕ
  date : ℤ
  pnl : PnlField
  emotionalState : Option String
deriving DecidableEq, Repr

/-- The record store shared by both backends: the in-memory maps of
`MemStorage` and the relational tables of `DatabaseStorage` hold the same
records; only the aggregation code differs. -/
structure Storage where
  habits : List Habit
  habitCompletions : List HabitCompletion
  tradeReviews : List TradeReview
deriving DecidableEq, Repr

/-- JavaScript truthiness of the PnL field (`t.pnl` as a condition). -/
def PnlField.truthy : PnlField → Bool
  | absent => false
  | _ => true

/-- `parseFloat(t.pnl)`: `NaN` unless the field holds a parseable
number.  (`parseFloat(null)` and `parseFloat("")` are also `NaN`.) -/
def parseFloatPnl : PnlField → JSNum
  | .num q => .num q
  | _ => .nan

/-- The finite value of a parseable PnL field (0 otherwise; only applied
to parseable fields). -/
def PnlField.q : PnlField → ℚ
  | num q => q
  | _ => 0

/-- The source's filter `t.pnl && !isNaN(parseFloat(t.pnl))`. -/
def hasNumericPnl (t : TradeReview) : Bool :=
  t.pnl.truthy && !(parseFloatPnl t.pnl).isNan

/-- The at-most-one-record-per-(habit, date) invariant maintained by
`createOrUpdateHabitCompletion` (spec section 3). -/
def completionsKeyUnique (s : Storage) : Prop :=
  ∀ c₁ ∈ s.habitCompletions, ∀ c₂ ∈ s.habitCompletions,
    c₁.habitId = c₂.habitId → c₁.date = c₂.date → c₁ = c₂

instance (s : Storage) : Decidable (completionsKeyUnique s) := by
  unfold completionsKeyUnique; infer_instance

/-! ### Store operations (MemStorage) -/

namespace MemStorage

/-- MemStorage.getHabits: the active habits. -/
def getHabits (s : Storage) : List Habit :=
  s.habits.filter (·.isActive)

/-- MemStorage.getHabit: lookup by id (`Map.get`). -/
def getHabit (s : Storage) (id : ℕ) : Option Habit :=
  s.habits.find? (·.id = id)

/-- MemStorage.deleteHabit: soft delete — flips `isActive` to false on the
entry keyed `id` (`Map.set` of the updated record), returning whether the
habit existed. -/
def deleteHabit (s : Storage) (id : ℕ) : Storage × Bool :=
  match s.habits.find? (·.id = id) with
  | none => (s, false)
  | some _ =>
      ({ s with habits :=
          s.habits.map (fun h => if h.id = id then { h with isActive := false } else h) },
       true)

/-- MemStorage.getHabitCompletions with no date bounds: all completion
records of one habit. -/
def getHabitCompletions (s : Storage) (habitId : ℕ) : List HabitCompletion :=
  s.habitCompletions.filter (·.habitId = habitId)

/-- MemStorage.getHabitCompletion: the record keyed (habitId, date). -/
def getHabitCompletion (s : Storage) (habitId : ℕ) (date : ℤ) :
    Option HabitCompletion :=
  s.habitCompletions.find? (fun c => c.habitId = habitId && c.date = date)

/-- MemStorage.getTradeReviews with both bounds: trades whose date lies in
the inclusive range. -/
def getTradeReviews (s : Storage) (startDate endDate : ℤ) : List TradeReview :=
  s.tradeReviews.filter (fun t => startDate ≤ t.date && t.date ≤ endDate)

/-- MemStorage.getTradeReview: lookup by id. -/
def getTradeReview (s : Storage) (id : ℕ) : Option TradeReview :=
  s.tradeReviews.find? (·.id = id)

/-- MemStorage.deleteTradeReview: hard delete (`Map.delete`), returning
whether the trade existed. -/
def deleteTradeReview (s : Storage) (id : ℕ) : Storage × Bool :=
  ({ s with tradeReviews := s.tradeReviews.filter (fun t => ¬ t.id = id) },
   s.tradeReviews.any (·.id = id))

end MemStorage

/-- Physical removal of a habit row — not an operation of the source; used
only to state that a soft-deleted habit contributes nothing to the
aggregations. -/
def eraseHabit (s : Storage) (id : ℕ) : Storage :=
  { s with habits := s.habits.filter (fun h => ¬ h.id = id) }

/-! ### Shared lookup and streak helpers -/

/-- Find the completion record for a date in a per-habit record list and
read its `completed` flag; false when no record exists (absence means
"not completed").  This renders both the in-memory
`completions.find(c => c.date === dateStr)` followed by `.completed`, and
the `completionsMap.get(dateStr)` truthiness test of the database
backend. -/
def completedOnList (cs : List HabitCompletion) (day : ℤ) : Bool :=
  match cs.find? (fun c => c.date = day) with
  | some c => c.completed
  | none => false

/-- One-row lookup `getHabitCompletion(habitId, date)` followed by
`completion && completion.completed` (resp. `completion?.completed`). -/
def lookupCompleted (comps : List HabitCompletion) (habitId : ℕ) (day : ℤ) : Bool :=
  completedOnList (comps.filter (·.habitId = habitId)) day

/-- The backward streak walk of MemStorage.getHabitsWithStats: starting at
`day`, count consecutive days whose lookup succeeds, stopping at the first
gap; `fuel` is the source's defensive 365-iteration cap. -/
def streakFrom (look : ℤ → Bool) : ℕ → ℤ → ℕ
  | 0, _ => 0
  | fuel + 1, day =>
      if look day then streakFrom look fuel (day - 1) + 1 else 0

/-- The backward streak walk of DatabaseStorage.getHabitsWithStats: the
source loops `while (checkDate >= new Date(monthStart))`, so the fuel is
the number of days from the month start to the reference date,
inclusive. -/
def dbStreakFrom (look : ℤ → Bool) (monthStart : ℤ) (day : ℤ) : ℕ :=
  streakFrom look (day + 1 - monthStart).toNat day

/-! ### Analytics result records -/

/-- The per-habit analytics record returned by getHabitsWithStats (the
habit's own fields followed by the computed statistics).  Completion rates
are guarded integer percentages (see the header note on numbers). -/
structure HabitWithStats where
  id : ℕ
  name : String
  isActive : Bool
  currentStreak : ℕ
  completionRate : ℤ
  completedToday : Bool
  monthlyCompletions : ℕ
  totalDaysThisMonth : ℕ
deriving DecidableEq, Repr

/-- The getMonthlyStats result record. -/
structure MonthlyStats where
  bestStreak : ℕ
  totalHabits : ℕ
  completionRate : ℤ
  perfectDays : ℕ
deriving DecidableEq, Repr

/-- The getTradingStats result record.  `emotionalStates` is the
`Record<string, number>` frequency map as an association list in insertion
order. -/
structure TradingStats where
  totalTrades : ℕ
  winRate : JSNum
  totalPnL : JSNum
  avgWin : JSNum
  avgLoss : JSNum
  profitFactor : JSNum
  emotionalStates : List (String × ℕ)
deriving DecidableEq, Repr

/-- Increment a key of a `Record<string, number>` association list:
`m[k] = (m[k] || 0) + 1`. -/
def bumpState (m : List (String × ℕ)) (k : String) : List (String × ℕ) :=
  if m.any (·.1 = k) then
    m.map (fun p => if p.1 = k then (p.1, p.2 + 1) else p)
  else m ++ [(k, 1)]

/-- The emotional-state frequency map built by both backends'
`trades.forEach` loop. -/
def emotionalStatesOf (trades : List TradeReview) : List (String × ℕ) :=
  trades.foldl
    (fun m t => match t.emotionalState with
      | some e => bumpState m e
      | none => m) []

/-! ### MemStorage analytics -/

/-- One day's completion count across a habit list, the inner
`for (const habit of habits)` loop of the weekly and monthly rollups. -/
def dayCompletions (habits : List Habit) (comps : List HabitCompletion)
    (day : ℤ) : ℕ :=
  (habits.filter (fun h => lookupCompleted comps h.id day)).length

/-- MemStorage.getWeeklyProgress over an explicit habit list and
completion table: one `(date, completionRate)` entry per day of the
inclusive range, with `completionRate = round(completed / total * 100)`
guarded to 0 when there are no active habits. -/
def memWeeklyCore (habits : List Habit) (comps : List HabitCompletion)
    (startDate endDate : ℤ) : List (ℤ × ℤ) :=
  (dayRange startDate endDate).map (fun day =>
    let totalHabits := habits.length
    let completedHabits := dayCompletions habits comps day
    (day, if totalHabits > 0
          then jsRound ((completedHabits : ℚ) / (totalHabits : ℚ) * 100)
          else 0))

/-- The run-length scan of MemStorage.getMonthlyStats: walk the daily
rate series, extending the current run on a 100% day and resetting it
otherwise, tracking the best run seen. -/
def bestStreakScan (rates : List ℤ) : ℕ :=
  (rates.foldl
    (fun (acc : ℕ × ℕ) r =>
      if r = 100 then (max acc.1 (acc.2 + 1), acc.2 + 1) else (acc.1, 0))
    (0, 0)).1

namespace MemStorage

/-- MemStorage.getWeeklyProgress: active habits are fetched once, then the
day loop runs over the inclusive range. -/
def getWeeklyProgress (s : Storage) (startDate endDate : ℤ) : List (ℤ × ℤ) :=
  memWeeklyCore (getHabits s) s.habitCompletions startDate endDate

/-- The per-habit record MemStorage.getHabitsWithStats assembles: monthly
completion count and rate over the reference date's calendar month, the
completed-today flag, and the backward streak walk capped at 365 days. -/
def habitStats (comps : List HabitCompletion) (y m d : ℕ) (h : Habit) :
    HabitWithStats :=
  let refDate := dateToZ y m d
  let startOfMonth := dateToZ y m 1
  let endOfMonth := dateToZ y m (daysInMonth y m)
  let completions := comps.filter (·.habitId = h.id)
  let monthlyCompletions := completions.filter
    (fun c => decide (startOfMonth ≤ c.date) && decide (c.date ≤ endOfMonth) && c.completed)
  let completedToday := completions.any (fun c => decide (c.date = refDate) && c.completed)
  let currentStreak := streakFrom (fun day => completedOnList completions day) 365 refDate
  let totalDaysThisMonth := daysInMonth y m
  let completionRate : ℤ :=
    if totalDaysThisMonth > 0
    then jsRound ((monthlyCompletions.length : ℚ) / (totalDaysThisMonth : ℚ) * 100)
    else 0
  { id := h.id, name := h.name, isActive := h.isActive,
    currentStreak := currentStreak, completionRate := completionRate,
    completedToday := completedToday,
    monthlyCompletions := monthlyCompletions.length,
    totalDaysThisMonth := totalDaysThisMonth }

/-- MemStorage.getHabitsWithStats at the reference date `y`-`m`-`d`. -/
def getHabitsWithStats (s : Storage) (y m d : ℕ) : List HabitWithStats :=
  (getHabits s).map (habitStats s.habitCompletions y m d)

/-- MemStorage.getMonthlyStats: per-day completion counting over the
month (perfect days require a non-empty habit list), then the best-streak
run-length scan over the month's weekly-progress series. -/
def getMonthlyStats (s : Storage) (y m : ℕ) : MonthlyStats :=
  let habits := getHabits s
  let days := monthDates y m
  let totalCompletions := (days.map (dayCompletions habits s.habitCompletions)).sum
  -- the loop bumps totalPossible once per (day, habit) pair
  let totalPossible := days.length * habits.length
  let perfectDays := (days.filter (fun day =>
      dayCompletions habits s.habitCompletions day = habits.length
        && habits.length > 0)).length
  let weeklyProgress := getWeeklyProgress s (dateToZ y m 1) (dateToZ y m (daysInMonth y m))
  let bestStreak := bestStreakScan (weeklyProgress.map (·.2))
  let completionRate : ℤ :=
    if totalPossible > 0
    then jsRound ((totalCompletions : ℚ) / (totalPossible : ℚ) * 100)
    else 0
  { bestStreak := bestStreak, totalHabits := habits.length,
    completionRate := completionRate, perfectDays := perfectDays }

/-- MemStorage.getTradingStats over an explicit trade list (the body after
`getTradeReviews(startDate, endDate)`): trades without a parseable PnL are
filtered out before the win/loss partitioning, every ratio is guarded,
and the no-loss profit factor is the 999 sentinel. -/
def tradingStatsOf (trades : List TradeReview) : TradingStats :=
  let totalTrades := trades.length
  if totalTrades = 0 then
    { totalTrades := 0, winRate := .num 0, totalPnL := .num 0,
      avgWin := .num 0, avgLoss := .num 0, profitFactor := .num 0,
      emotionalStates := [] }
  else
    let tradesWithPnL := trades.filter hasNumericPnl
    let winningTrades := tradesWithPnL.filter
      (fun t => JSNum.lt (.num 0) (parseFloatPnl t.pnl))
    let losingTrades := tradesWithPnL.filter
      (fun t => JSNum.lt (parseFloatPnl t.pnl) (.num 0))
    let totalPnL := tradesWithPnL.foldl
      (fun (sm : JSNum) t => sm.add (parseFloatPnl t.pnl)) (JSNum.num 0)
    let winRate : JSNum :=
      if tradesWithPnL.length > 0
      then ((JSNum.num winningTrades.length).div (.num tradesWithPnL.length)).mul (.num 100)
      else .num 0
    let totalWins := winningTrades.foldl
      (fun (sm : JSNum) t => sm.add (parseFloatPnl t.pnl)) (JSNum.num 0)
    let totalLosses := (losingTrades.foldl
      (fun (sm : JSNum) t => sm.add (parseFloatPnl t.pnl)) (JSNum.num 0)).abs
    let avgWin : JSNum :=
      if winningTrades.length > 0
      then totalWins.div (.num winningTrades.length) else .num 0
    let avgLoss : JSNum :=
      if losingTrades.length > 0
      then totalLosses.div (.num losingTrades.length) else .num 0
    let profitFactor : JSNum :=
      if JSNum.lt (.num 0) totalLosses then totalWins.div totalLosses
      else if JSNum.lt (.num 0) totalWins then .num 999 else .num 0
    { totalTrades := totalTrades,
      winRate := winRate.round,
      totalPnL := totalPnL.round2,
      avgWin := avgWin.round2,
      avgLoss := avgLoss.round2,
      profitFactor := profitFactor.round2,
      emotionalStates := emotionalStatesOf trades }

/-- MemStorage.getTradingStats over a date range. -/
def getTradingStats (s : Storage) (startDate endDate : ℤ) : TradingStats :=
  tradingStatsOf (getTradeReviews s startDate endDate)

end MemStorage

/-! ### DatabaseStorage analytics -/

namespace DatabaseStorage

/-- DatabaseStorage.getHabits: `select … where isActive` (the name
ordering of the source is dropped; see the header note). -/
def getHabits (s : Storage) : List Habit :=
  s.habits.filter (·.isActive)

/-- DatabaseStorage.getHabit. -/
def getHabit (s : Storage) (id : ℕ) : Option Habit :=
  s.habits.find? (·.id = id)

/-- DatabaseStorage.deleteHabit: `update … set isActive = false where id`,
returning whether a row was affected. -/
def deleteHabit (s : Storage) (id : ℕ) : Storage × Bool :=
  ({ s with habits :=
      s.habits.map (fun h => if h.id = id then { h with isActive := false } else h) },
   s.habits.any (·.id = id))

/-- DatabaseStorage.getTradeReviews with both bounds (the descending date
ordering of the source is dropped; see the header note). -/
def getTradeReviews (s : Storage) (startDate endDate : ℤ) : List TradeReview :=
  s.tradeReviews.filter (fun t => startDate ≤ t.date && t.date ≤ endDate)

/-- DatabaseStorage.getTradeReview. -/
def getTradeReview (s : Storage) (id : ℕ) : Option TradeReview :=
  s.tradeReviews.find? (·.id = id)

/-- DatabaseStorage.deleteTradeReview: `delete … where id`, returning
whether a row was affected. -/
def deleteTradeReview (s : Storage) (id : ℕ) : Storage × Bool :=
  ({ s with tradeReviews := s.tradeReviews.filter (fun t => ¬ t.id = id) },
   s.tradeReviews.any (·.id = id))

/-- DatabaseStorage.getWeeklyProgress: same day loop as the in-memory
backend (`Math.round` sits inside the guard there and outside it here;
`Math.round(0) = 0`, so the rendered expression is the same). -/
def getWeeklyProgress (s : Storage) (startDate endDate : ℤ) : List (ℤ × ℤ) :=
  (dayRange startDate endDate).map (fun day =>
    let totalCompletions := dayCompletions (getHabits s) s.habitCompletions day
    (day, if (getHabits s).length > 0
          then jsRound ((totalCompletions : ℚ) / ((getHabits s).length : ℚ) * 100)
          else 0))

/-- The per-habit record DatabaseStorage.getHabitsWithStats assembles.
Unlike the in-memory backend, the streak walk reads only the reference
month's completions and stops at the month start
(`while (checkDate >= new Date(monthStart))`). -/
def habitStats (comps : List HabitCompletion) (y m d : ℕ) (h : Habit) :
    HabitWithStats :=
  let daysInMonthN := daysInMonth y m
  let refDate := dateToZ y m d
  let monthStart := dateToZ y m 1
  let monthEnd := dateToZ y m daysInMonthN
  let completedToday := lookupCompleted comps h.id refDate
  let monthlyCompletions := comps.filter
    (fun c => decide (c.habitId = h.id) && decide (monthStart ≤ c.date)
      && decide (c.date ≤ monthEnd))
  let completedDays := (monthlyCompletions.filter (·.completed)).length
  let completionRate : ℤ :=
    if daysInMonthN > 0
    then jsRound ((completedDays : ℚ) / (daysInMonthN : ℚ) * 100)
    else 0
  let currentStreak := dbStreakFrom
    (fun day => completedOnList monthlyCompletions day) monthStart refDate
  { id := h.id, name := h.name, isActive := h.isActive,
    currentStreak := currentStreak, completionRate := completionRate,
    completedToday := completedToday,
    monthlyCompletions := completedDays,
    totalDaysThisMonth := daysInMonthN }

/-- DatabaseStorage.getHabitsWithStats. -/
def getHabitsWithStats (s : Storage) (y m d : ℕ) : List HabitWithStats :=
  (getHabits s).map (habitStats s.habitCompletions y m d)

/-- DatabaseStorage.getMonthlyStats.  The source declares
`let bestStreak = 0` and never updates it — the returned best streak is
always 0 (the day loop only accumulates completions and perfect days). -/
def getMonthlyStats (s : Storage) (y m : ℕ) : MonthlyStats :=
  let allHabits := getHabits s
  let daysInMonthN := daysInMonth y m
  let days := (List.range daysInMonthN).map (fun k => dateToZ y m (k + 1))
  let totalCompletions := (days.map (dayCompletions allHabits s.habitCompletions)).sum
  let perfectDays := (days.filter (fun day =>
      dayCompletions allHabits s.habitCompletions day = allHabits.length
        && allHabits.length > 0)).length
  let totalPossible := allHabits.length * daysInMonthN
  let completionRate : ℤ :=
    if totalPossible > 0
    then jsRound ((totalCompletions : ℚ) / (totalPossible : ℚ) * 100)
    else 0
  { bestStreak := 0, totalHabits := allHabits.length,
    completionRate := completionRate, perfectDays := perfectDays }

/-- DatabaseStorage.getTradingStats over an explicit trade list (the body
after `getTradeReviews`).  The source accumulates everything in one
`forEach`; the accumulators are independent, so each is rendered as its
own reduction over the same list.  Note the differences from the
in-memory backend: a trade only needs a *truthy* PnL (not a parseable
one) to reach `totalPnL`, the win-rate denominator is `totalTrades`, and
the profit factor is `avgWin / avgLoss` with no 999 sentinel. -/
def tradingStatsOf (trades : List TradeReview) : TradingStats :=
  let totalTrades := trades.length
  if totalTrades = 0 then
    { totalTrades := 0, winRate := .num 0, totalPnL := .num 0,
      avgWin := .num 0, avgLoss := .num 0, profitFactor := .num 0,
      emotionalStates := [] }
  else
    let withPnl := trades.filter (·.pnl.truthy)
    -- `wins` and `winCount` are incremented together in the source
    let wins := (withPnl.filter
      (fun t => JSNum.lt (.num 0) (parseFloatPnl t.pnl))).length
    let winCount := wins
    let lossCount := (withPnl.filter
      (fun t => JSNum.lt (parseFloatPnl t.pnl) (.num 0))).length
    let totalPnL := withPnl.foldl
      (fun (sm : JSNum) t => sm.add (parseFloatPnl t.pnl)) (JSNum.num 0)
    let totalWins : ℚ := ((withPnl.filter
      (fun t => JSNum.lt (.num 0) (parseFloatPnl t.pnl))).map (fun t => t.pnl.q)).sum
    let totalLosses : ℚ := ((withPnl.filter
      (fun t => JSNum.lt (parseFloatPnl t.pnl) (.num 0))).map (fun t => |t.pnl.q|)).sum
    -- totalTrades ≠ 0 here, so the division is finite
    let winRate : ℚ := ((wins : ℚ) / (totalTrades : ℚ)) * 100
    let avgWin : ℚ := if winCount > 0 then totalWins / (winCount : ℚ) else 0
    let avgLoss : ℚ := if lossCount > 0 then totalLosses / (lossCount : ℚ) else 0
    let profitFactor : ℚ := if 0 < avgLoss then avgWin / avgLoss else 0
    { totalTrades := totalTrades,
      winRate := .num (jsRound winRate : ℤ),
      totalPnL := totalPnL.round2,
      avgWin := .num (round2q avgWin),
      avgLoss := .num (round2q avgLoss),
      profitFactor := .num (round2q profitFactor),
      emotionalStates := emotionalStatesOf trades }

/-- DatabaseStorage.getTradingStats over a date range. -/
def getTradingStats (s : Storage) (startDate endDate : ℤ) : TradingStats :=
  tradingStatsOf (getTradeReviews s startDate endDate)

end DatabaseStorage

/-! ### Spec-side formulas

These definitions render the spec's stated formulas (section 4.4 and the
claims) at the rational level; the theorems below compare each backend's
computation against them. -/

/-- The parseable PnL values of a trade list, in order (the spec's
"trades with a parseable numeric PnL"). -/
def numericPnls (trades : List TradeReview) : List ℚ :=
  (trades.filter hasNumericPnl).map (fun t => t.pnl.q)

/-- The winning PnL values of a value list. -/
def winsOf (l : List ℚ) : List ℚ := l.filter (fun q => decide (0 < q))

/-- The losing PnL values of a value list. -/
def lossesOf (l : List ℚ) : List ℚ := l.filter (fun q => decide (q < 0))

/-- Modelled from the spec: `winRate = round(winningTrades / tradesWithPnL
* 100)`, 0 when no trade has a parseable PnL. -/
def specWinRate (l : List ℚ) : ℚ :=
  if l.length = 0 then 0
  else (jsRound (((winsOf l).length : ℚ) / (l.length : ℚ) * 100) : ℚ)

/-- Modelled from the spec: total PnL of the parseable trades, rounded to
two decimals. -/
def specTotalPnL (l : List ℚ) : ℚ := round2q l.sum

/-- Modelled from the spec: mean winning PnL (0 when there are no
winners), rounded to two decimals. -/
def specAvgWin (l : List ℚ) : ℚ :=
  if (winsOf l).length = 0 then 0
  else round2q ((winsOf l).sum / ((winsOf l).length : ℚ))

/-- Modelled from the spec: mean absolute losing PnL (0 when there are no
losers), rounded to two decimals. -/
def specAvgLoss (l : List ℚ) : ℚ :=
  if (lossesOf l).length = 0 then 0
  else round2q (((lossesOf l).map (fun q => |q|)).sum / ((lossesOf l).length : ℚ))

/-- Modelled from the spec: `profitFactor = sum(wins) / sum(|losses|)`
rounded to two decimals, with the 999 sentinel when there are wins but no
losses and 0 when there are neither. -/
def specProfitFactor (l : List ℚ) : ℚ :=
  let w := (winsOf l).sum
  let z := ((lossesOf l).map (fun q => |q|)).sum
  if 0 < z then round2q (w / z) else if 0 < w then 999 else 0

/-- What DatabaseStorage.getTradingStats actually returns as the win
rate: the denominator is `totalTrades`, not the parseable-PnL count. -/
def dbWinRateValue (trades : List TradeReview) : ℚ :=
  if trades.length = 0 then 0
  else (jsRound (((winsOf (numericPnls trades)).length : ℚ) / (trades.length : ℚ) * 100) : ℚ)

/-- What DatabaseStorage.getTradingStats actually returns as the profit
factor: the ratio of the mean win to the mean absolute loss (not of the
sums), 0 — not 999 — when there are no losses. -/
def dbProfitFactorValue (l : List ℚ) : ℚ :=
  let avgW := if (winsOf l).length = 0 then 0 else (winsOf l).sum / ((winsOf l).length : ℚ)
  let avgL := if (lossesOf l).length = 0 then 0
    else ((lossesOf l).map (fun q => |q|)).sum / ((lossesOf l).length : ℚ)
  if 0 < avgL then round2q (avgW / avgL) else 0

/-! ### Basic computation lemmas -/

theorem JSNum.num_add_num (a b : ℚ) : (JSNum.num a).add (.num b) = .num (a + b) := rfl

theorem JSNum.num_mul_num (a b : ℚ) : (JSNum.num a).mul (.num b) = .num (a * b) := rfl

theorem JSNum.num_div_num (a b : ℚ) (hb : b ≠ 0) :
    (JSNum.num a).div (.num b) = .num (a / b) := by
  simp [JSNum.div, hb]

theorem JSNum.round_num (a : ℚ) : (JSNum.num a).round = .num (jsRound a : ℤ) := rfl

theorem JSNum.lt_num_num (a b : ℚ) : JSNum.lt (.num a) (.num b) = decide (a < b) := rfl

theorem JSNum.abs_num (a : ℚ) : (JSNum.num a).abs = .num |a| := rfl

theorem JSNum.round2_num (a : ℚ) : (JSNum.num a).round2 = .num (round2q a) := by
  have h100 : (100 : ℚ) ≠ 0 := by norm_num
  simp [JSNum.round2, JSNum.num_mul_num, JSNum.round_num, JSNum.num_div_num _ _ h100, round2q]

theorem JSNum.nan_add (x : JSNum) : JSNum.nan.add x = .nan := by
  cases x <;> rfl

theorem JSNum.add_nan (x : JSNum) : x.add .nan = .nan := by
  cases x <;> rfl

/-- A trade passes the parseable-PnL filter exactly when its PnL field
holds a finite value. -/
theorem hasNumericPnl_iff (t : TradeReview) :
    hasNumericPnl t = true ↔ ∃ q : ℚ, t.pnl = .num q := by
  cases h : t.pnl <;>
    simp [hasNumericPnl, PnlField.truthy, parseFloatPnl, JSNum.isNan, h]

theorem parseFloatPnl_of_num {t : TradeReview} {q : ℚ} (h : t.pnl = .num q) :
    parseFloatPnl t.pnl = .num q := by
  rw [h]; rfl

/-- On trades that all carry a parseable PnL, filtering by the positive
JavaScript comparison and projecting the values is taking the winning
values. -/
theorem winFilter_map (l : List TradeReview)
    (hl : ∀ t ∈ l, hasNumericPnl t = true) :
    (l.filter (fun t => JSNum.lt (.num 0) (parseFloatPnl t.pnl))).map (fun t => t.pnl.q)
      = winsOf (l.map (fun t => t.pnl.q)) := by
  induction l with
  | nil => rfl
  | cons t l ih =>
      obtain ⟨q, hq⟩ := (hasNumericPnl_iff t).mp (hl t (by simp))
      have ih' := ih (fun x hx => hl x (by simp [hx]))
      by_cases h0 : 0 < q <;>
        simp [winsOf, List.filter_cons, hq, parseFloatPnl, PnlField.q, JSNum.lt, h0, ih',
          winsOf] at ih' ⊢

/-- The losing counterpart of `winFilter_map`. -/
theorem lossFilter_map (l : List TradeReview)
    (hl : ∀ t ∈ l, hasNumericPnl t = true) :
    (l.filter (fun t => JSNum.lt (parseFloatPnl t.pnl) (.num 0))).map (fun t => t.pnl.q)
      = lossesOf (l.map (fun t => t.pnl.q)) := by
  induction l with
  | nil => rfl
  | cons t l ih =>
      obtain ⟨q, hq⟩ := (hasNumericPnl_iff t).mp (hl t (by simp))
      have ih' := ih (fun x hx => hl x (by simp [hx]))
      by_cases h0 : q < 0 <;>
        simp [lossesOf, List.filter_cons, hq, parseFloatPnl, PnlField.q, JSNum.lt, h0, ih',
          lossesOf] at ih' ⊢

/-- Folding JavaScript addition of parseable PnL values stays finite and
computes the rational sum. -/
theorem foldl_add_parse (l : List TradeReview)
    (hl : ∀ t ∈ l, hasNumericPnl t = true) :
    ∀ q₀ : ℚ, l.foldl (fun (sm : JSNum) t => sm.add (parseFloatPnl t.pnl)) (.num q₀)
      = .num (q₀ + (l.map (fun t => t.pnl.q)).sum) := by
  induction l with
  | nil => intro q₀; simp
  | cons t l ih =>
      intro q₀
      obtain ⟨q, hq⟩ := (hasNumericPnl_iff t).mp (hl t (by simp))
      have ih' := ih (fun x hx => hl x (by simp [hx]))
      rw [List.foldl_cons, parseFloatPnl_of_num hq, JSNum.num_add_num, ih', List.map_cons,
        List.sum_cons, hq]
      simp only [PnlField.q]
      congr 1
      ring

/-- A sum of negative values is nonpositive and its absolute value is the
sum of the absolute values. -/
theorem abs_sum_of_neg (l : List ℚ) (hl : ∀ q ∈ l, q < 0) :
    l.sum ≤ 0 ∧ |l.sum| = (l.map (fun q => |q|)).sum := by
  induction l with
  | nil => simp
  | cons a l ih =>
      have ha : a < 0 := hl a (by simp)
      obtain ⟨hs, habs⟩ := ih (fun x hx => hl x (by simp [hx]))
      constructor
      · simp only [List.sum_cons]; linarith
      · simp only [List.sum_cons, List.map_cons]
        have h1 : |a + l.sum| = -(a + l.sum) := abs_of_nonpos (by linarith)
        rw [h1, abs_of_neg ha, ← habs, abs_of_nonpos hs]
        ring

/-- Members of the parseable-PnL filter are parseable. -/
theorem mem_withPnl (trades : List TradeReview) :
    ∀ t ∈ trades.filter hasNumericPnl, hasNumericPnl t = true := by
  intro t ht; exact List.of_mem_filter ht

theorem jsRound_zero : jsRound 0 = 0 := by norm_num [jsRound]

theorem round2q_zero : round2q 0 = 0 := by norm_num [round2q, jsRound]

theorem round2q_999 : round2q 999 = 999 := by norm_num [round2q, jsRound]

/-- MemStorage.getTradingStats computes exactly the spec's formulas: all
ratios are finite rationals (never `NaN` or an infinity), with the
spec's guards and the 999 profit-factor sentinel. -/
theorem memStats_eq (trades : List TradeReview) :
    MemStorage.tradingStatsOf trades =
      { totalTrades := trades.length,
        winRate := .num (specWinRate (numericPnls trades)),
        totalPnL := .num (specTotalPnL (numericPnls trades)),
        avgWin := .num (specAvgWin (numericPnls trades)),
        avgLoss := .num (specAvgLoss (numericPnls trades)),
        profitFactor := .num (specProfitFactor (numericPnls trades)),
        emotionalStates := emotionalStatesOf trades } := by
  by_cases h : trades.length = 0
  · have h0 : trades = [] := List.length_eq_zero.mp h
    subst h0
    simp [MemStorage.tradingStatsOf, numericPnls, specWinRate, specTotalPnL, specAvgWin,
      specAvgLoss, specProfitFactor, emotionalStatesOf, round2q_zero, winsOf, lossesOf,
      round2q, jsRound]
    norm_num [Int.floor_eq_zero_iff]
  · -- non-empty trade list: name the intermediate aggregates and rewrite
    have hmem := mem_withPnl trades
    have hlv : numericPnls trades = (trades.filter hasNumericPnl).map (fun t => t.pnl.q) := rfl
    have hA := winFilter_map (trades.filter hasNumericPnl) hmem
    have hB := lossFilter_map (trades.filter hasNumericPnl) hmem
    rw [← hlv] at hA hB
    have hllen : (numericPnls trades).length = (trades.filter hasNumericPnl).length := by
      rw [hlv, List.length_map]
    have hAlen : ((trades.filter hasNumericPnl).filter
        (fun t => JSNum.lt (.num 0) (parseFloatPnl t.pnl))).length
        = (winsOf (numericPnls trades)).length := by
      have := congrArg List.length hA
      simpa using this
    have hBlen : ((trades.filter hasNumericPnl).filter
        (fun t => JSNum.lt (parseFloatPnl t.pnl) (.num 0))).length
        = (lossesOf (numericPnls trades)).length := by
      have := congrArg List.length hB
      simpa using this
    have hC : (trades.filter hasNumericPnl).foldl
        (fun (sm : JSNum) t => sm.add (parseFloatPnl t.pnl)) (.num 0)
        = .num (numericPnls trades).sum := by
      rw [foldl_add_parse _ hmem 0, ← hlv, zero_add]
    have hD : ((trades.filter hasNumericPnl).filter
        (fun t => JSNum.lt (.num 0) (parseFloatPnl t.pnl))).foldl
        (fun (sm : JSNum) t => sm.add (parseFloatPnl t.pnl)) (.num 0)
        = .num (winsOf (numericPnls trades)).sum := by
      rw [foldl_add_parse _ (fun t ht => hmem t (List.mem_of_mem_filter ht)) 0, hA, zero_add]
    have hE : ((trades.filter hasNumericPnl).filter
        (fun t => JSNum.lt (parseFloatPnl t.pnl) (.num 0))).foldl
        (fun (sm : JSNum) t => sm.add (parseFloatPnl t.pnl)) (.num 0)
        = .num (lossesOf (numericPnls trades)).sum := by
      rw [foldl_add_parse _ (fun t ht => hmem t (List.mem_of_mem_filter ht)) 0, hB, zero_add]
    have hneg : ∀ q ∈ lossesOf (numericPnls trades), q < 0 := by
      intro q hq
      simpa using (List.mem_filter.mp hq).2
    have hEabs : |(lossesOf (numericPnls trades)).sum|
        = ((lossesOf (numericPnls trades)).map (fun q => |q|)).sum :=
      (abs_sum_of_neg _ hneg).2
    simp only [MemStorage.tradingStatsOf]
    rw [if_neg h]
    simp only [TradingStats.mk.injEq, true_and, and_true]
    refine ⟨?_, ?_, ?_, ?_, ?_⟩
    · -- winRate
      by_cases hn : (trades.filter hasNumericPnl).length = 0
      · rw [if_neg (by omega), specWinRate, if_pos (by omega)]
        simp [JSNum.round_num, jsRound_zero]
      · rw [if_pos (by omega), JSNum.num_div_num _ _ (by exact_mod_cast hn),
          JSNum.num_mul_num, JSNum.round_num, specWinRate, if_neg (by omega),
          hAlen, hllen]
    · -- totalPnL
      rw [hC, JSNum.round2_num, specTotalPnL]
    · -- avgWin
      by_cases hw : ((trades.filter hasNumericPnl).filter
          (fun t => JSNum.lt (.num 0) (parseFloatPnl t.pnl))).length = 0
      · rw [if_neg (by omega), specAvgWin, if_pos (by omega)]
        simp [JSNum.round2_num, round2q_zero]
      · rw [if_pos (by omega), hD, JSNum.num_div_num _ _ (by exact_mod_cast hw),
          JSNum.round2_num, specAvgWin, if_neg (by omega), hAlen]
    · -- avgLoss
      by_cases hw : ((trades.filter hasNumericPnl).filter
          (fun t => JSNum.lt (parseFloatPnl t.pnl) (.num 0))).length = 0
      · rw [if_neg (by omega), specAvgLoss, if_pos (by omega)]
        simp [JSNum.round2_num, round2q_zero]
      · rw [if_pos (by omega), hE, JSNum.abs_num, hEabs,
          JSNum.num_div_num _ _ (by exact_mod_cast hw),
          JSNum.round2_num, specAvgLoss, if_neg (by omega), hBlen]
    · -- profitFactor
      rw [hD, hE, JSNum.abs_num, hEabs]
      by_cases hz : 0 < ((lossesOf (numericPnls trades)).map (fun q => |q|)).sum
      · rw [if_pos (by simp [JSNum.lt_num_num, hz]),
          JSNum.num_div_num _ _ (ne_of_gt hz),
          JSNum.round2_num, specProfitFactor]
        simp [hz]
      · by_cases hw2 : 0 < (winsOf (numericPnls trades)).sum
        · rw [if_neg (by simp [JSNum.lt_num_num, hz]),
            if_pos (by simp [JSNum.lt_num_num, hw2]),
            JSNum.round2_num, round2q_999, specProfitFactor]
          simp [hz, hw2]
        · rw [if_neg (by simp [JSNum.lt_num_num, hz]),
            if_neg (by simp [JSNum.lt_num_num, hw2]),
            JSNum.round2_num, round2q_zero, specProfitFactor]
          simp [hz, hw2]

/-- Folding JavaScript addition over a list containing a `NaN`
contribution is `NaN`. -/
theorem foldl_add_nan (l : List TradeReview)
    (hx : ∃ t ∈ l, (parseFloatPnl t.pnl).isNan = true) :
    ∀ x₀ : JSNum, l.foldl (fun (sm : JSNum) t => sm.add (parseFloatPnl t.pnl)) x₀ = .nan := by
  have habs : ∀ (l₂ : List TradeReview),
      l₂.foldl (fun (sm : JSNum) t => sm.add (parseFloatPnl t.pnl)) .nan = .nan := by
    intro l₂
    induction l₂ with
    | nil => rfl
    | cons t l₂ ih => simpa [JSNum.nan_add] using ih
  induction l with
  | nil => simp at hx
  | cons t l ih =>
      intro x₀
      rcases hx with ⟨u, hu, hnan⟩
      rcases List.mem_cons.mp hu with rfl | hu2
      · have : parseFloatPnl u.pnl = .nan := by
          cases h : parseFloatPnl u.pnl <;> simp [JSNum.isNan, h] at hnan ⊢
        simp only [List.foldl_cons, this, JSNum.add_nan]
        exact habs l
      · rw [List.foldl_cons]
        exact ih ⟨u, hu2, hnan⟩ _

/-- On trades all lacking an unparseable-but-truthy PnL, the truthy
filter and the parseable filter agree. -/
theorem truthyFilter_eq (trades : List TradeReview)
    (hclean : ∀ t ∈ trades, t.pnl ≠ .nonNumeric) :
    trades.filter (fun t => t.pnl.truthy) = trades.filter hasNumericPnl := by
  apply List.filter_congr
  intro t ht
  cases h : t.pnl
  · simp [PnlField.truthy, hasNumericPnl, h]
  · exact absurd h (hclean t ht)
  · simp [PnlField.truthy, hasNumericPnl, h, parseFloatPnl, JSNum.isNan]

/-- The winners among the truthy-PnL trades are the winners among the
parseable-PnL trades: a truthy but unparseable PnL compares false. -/
theorem dbWinFilter (trades : List TradeReview) :
    (trades.filter (fun t => t.pnl.truthy)).filter
        (fun t => JSNum.lt (.num 0) (parseFloatPnl t.pnl))
      = (trades.filter hasNumericPnl).filter
        (fun t => JSNum.lt (.num 0) (parseFloatPnl t.pnl)) := by
  rw [List.filter_filter, List.filter_filter]
  congr 1
  funext t
  cases h : t.pnl <;>
    simp [PnlField.truthy, hasNumericPnl, h, parseFloatPnl, JSNum.isNan, JSNum.lt]

/-- The losing counterpart of `dbWinFilter`. -/
theorem dbLossFilter (trades : List TradeReview) :
    (trades.filter (fun t => t.pnl.truthy)).filter
        (fun t => JSNum.lt (parseFloatPnl t.pnl) (.num 0))
      = (trades.filter hasNumericPnl).filter
        (fun t => JSNum.lt (parseFloatPnl t.pnl) (.num 0)) := by
  rw [List.filter_filter, List.filter_filter]
  congr 1
  funext t
  cases h : t.pnl <;>
    simp [PnlField.truthy, hasNumericPnl, h, parseFloatPnl, JSNum.isNan, JSNum.lt]

theorem JSNum.round2_nan : JSNum.nan.round2 = .nan := rfl

/-- DatabaseStorage.getTradingStats computed in closed form.  The win
rate divides by `totalTrades`, the profit factor is the ratio of the
averages with no 999 sentinel, and `totalPnL` is `NaN` exactly when some
in-range trade has a truthy but unparseable PnL. -/
theorem dbStats_eq (trades : List TradeReview) :
    DatabaseStorage.tradingStatsOf trades =
      { totalTrades := trades.length,
        winRate := .num (dbWinRateValue trades),
        totalPnL := if ∃ t ∈ trades, t.pnl = .nonNumeric then .nan
          else .num (specTotalPnL (numericPnls trades)),
        avgWin := .num (specAvgWin (numericPnls trades)),
        avgLoss := .num (specAvgLoss (numericPnls trades)),
        profitFactor := .num (dbProfitFactorValue (numericPnls trades)),
        emotionalStates := emotionalStatesOf trades } := by
  by_cases h : trades.length = 0
  · have h0 : trades = [] := List.length_eq_zero.mp h
    subst h0
    simp [DatabaseStorage.tradingStatsOf, numericPnls, dbWinRateValue, specTotalPnL,
      specAvgWin, specAvgLoss, dbProfitFactorValue, emotionalStatesOf, winsOf, lossesOf,
      round2q, jsRound]
    norm_num [Int.floor_eq_zero_iff]
  · have hmem := mem_withPnl trades
    have hlv : numericPnls trades = (trades.filter hasNumericPnl).map (fun t => t.pnl.q) := rfl
    have hA := winFilter_map (trades.filter hasNumericPnl) hmem
    have hB := lossFilter_map (trades.filter hasNumericPnl) hmem
    rw [← hlv] at hA hB
    have hAlen : ((trades.filter (fun t => t.pnl.truthy)).filter
        (fun t => JSNum.lt (.num 0) (parseFloatPnl t.pnl))).length
        = (winsOf (numericPnls trades)).length := by
      rw [dbWinFilter trades]
      have := congrArg List.length hA
      simpa using this
    have hBlen : ((trades.filter (fun t => t.pnl.truthy)).filter
        (fun t => JSNum.lt (parseFloatPnl t.pnl) (.num 0))).length
        = (lossesOf (numericPnls trades)).length := by
      rw [dbLossFilter trades]
      have := congrArg List.length hB
      simpa using this
    have hAsum : (((trades.filter (fun t => t.pnl.truthy)).filter
        (fun t => JSNum.lt (.num 0) (parseFloatPnl t.pnl))).map (fun t => t.pnl.q)).sum
        = (winsOf (numericPnls trades)).sum := by
      rw [dbWinFilter trades, hA]
    have hBabs : (((trades.filter (fun t => t.pnl.truthy)).filter
        (fun t => JSNum.lt (parseFloatPnl t.pnl) (.num 0))).map (fun t => |t.pnl.q|)).sum
        = ((lossesOf (numericPnls trades)).map (fun q => |q|)).sum := by
      rw [dbLossFilter trades, ← hB, List.map_map]
      rfl
    simp only [DatabaseStorage.tradingStatsOf]
    rw [if_neg h]
    simp only [TradingStats.mk.injEq, true_and, and_true]
    refine ⟨?_, ?_, ?_, ?_, ?_⟩
    · -- winRate
      rw [hAlen, dbWinRateValue, if_neg h]
    · -- totalPnL
      by_cases hx : ∃ t ∈ trades, t.pnl = .nonNumeric
      · rw [if_pos hx]
        obtain ⟨u, hu, hpnl⟩ := hx
        have humem : u ∈ trades.filter (fun t => t.pnl.truthy) :=
          List.mem_filter.mpr ⟨hu, by simp [hpnl, PnlField.truthy]⟩
        rw [foldl_add_nan _ ⟨u, humem, by simp [hpnl, parseFloatPnl, JSNum.isNan]⟩]
        exact JSNum.round2_nan
      · rw [if_neg hx]
        have hclean : ∀ t ∈ trades, t.pnl ≠ .nonNumeric := by
          intro t ht hcon
          exact hx ⟨t, ht, hcon⟩
        rw [truthyFilter_eq trades hclean, foldl_add_parse _ hmem 0, ← hlv, zero_add,
          JSNum.round2_num, specTotalPnL]
    · -- avgWin
      by_cases hw : ((trades.filter (fun t => t.pnl.truthy)).filter
          (fun t => JSNum.lt (.num 0) (parseFloatPnl t.pnl))).length = 0
      · rw [if_neg (by omega), specAvgWin, if_pos (by omega), round2q_zero]
      · rw [if_pos (by omega), hAsum, hAlen, specAvgWin, if_neg (by omega)]
    · -- avgLoss
      by_cases hw : ((trades.filter (fun t => t.pnl.truthy)).filter
          (fun t => JSNum.lt (parseFloatPnl t.pnl) (.num 0))).length = 0
      · rw [if_neg (by omega), specAvgLoss, if_pos (by omega), round2q_zero]
      · rw [if_pos (by omega), hBabs, hBlen, specAvgLoss, if_neg (by omega)]
    · -- profitFactor
      rw [hAsum, hAlen, hBabs, hBlen, dbProfitFactorValue]
      have eW : (if (winsOf (numericPnls trades)).length > 0
            then (winsOf (numericPnls trades)).sum / ((winsOf (numericPnls trades)).length : ℚ)
            else 0)
          = (if (winsOf (numericPnls trades)).length = 0 then 0
            else (winsOf (numericPnls trades)).sum / ((winsOf (numericPnls trades)).length : ℚ)) := by
        by_cases h0 : (winsOf (numericPnls trades)).length = 0 <;>
          simp [h0, Nat.pos_of_ne_zero]
      have eL : (if (lossesOf (numericPnls trades)).length > 0
            then ((lossesOf (numericPnls trades)).map (fun q => |q|)).sum
              / ((lossesOf (numericPnls trades)).length : ℚ)
            else 0)
          = (if (lossesOf (numericPnls trades)).length = 0 then 0
            else ((lossesOf (numericPnls trades)).map (fun q => |q|)).sum
              / ((lossesOf (numericPnls trades)).length : ℚ)) := by
        by_cases h0 : (lossesOf (numericPnls trades)).length = 0 <;>
          simp [h0, Nat.pos_of_ne_zero]
      rw [eW, eL]
      by_cases hz : 0 < (if (lossesOf (numericPnls trades)).length = 0 then 0
          else ((lossesOf (numericPnls trades)).map (fun q => |q|)).sum
            / ((lossesOf (numericPnls trades)).length : ℚ))
      · rw [if_pos hz, if_pos hz]
      · rw [if_neg hz, if_neg hz, round2q_zero]

/-- Filtering to the parseable trades does not change the parseable PnL
values. -/
theorem numericPnls_filter (l : List TradeReview) :
    numericPnls (l.filter hasNumericPnl) = numericPnls l := by
  simp [numericPnls, List.filter_filter]

/-! ### Claims C1, C2, C5 — trading statistics -/

/-- Trade-list store for the C1 counterexample: one winning parseable
trade and one trade with no PnL value, both on day 5. -/
def storeC1 : Storage :=
  ⟨[], [], [⟨1, 5, .num 100, none⟩, ⟨2, 5, .absent, none⟩]⟩

/-- C1 counterexample: with one parseable winning trade and one PnL-less
trade in range, the claim's formula gives round(1/1·100) = 100, but
DatabaseStorage.getTradingStats divides by `totalTrades` and returns 50 —
the claim is false of the database backend. -/
theorem claim1_counterexample :
    (numericPnls (DatabaseStorage.getTradeReviews storeC1 0 10)).length = 1
    ∧ (winsOf (numericPnls (DatabaseStorage.getTradeReviews storeC1 0 10))).length = 1
    ∧ (DatabaseStorage.getTradingStats storeC1 0 10).totalTrades = 2
    ∧ (DatabaseStorage.getTradingStats storeC1 0 10).winRate = JSNum.num 50
    ∧ (DatabaseStorage.getTradingStats storeC1 0 10).winRate
        ≠ JSNum.num (specWinRate (numericPnls (DatabaseStorage.getTradeReviews storeC1 0 10))) := by
  with_unfolding_all decide

/-- C1 (amended): for every date range, MemStorage.getTradingStats
returns `winRate = round(winningTrades / tradesWithPnL * 100)` with
denominator the parseable-PnL count and 0 when that count is zero;
DatabaseStorage.getTradingStats instead returns
`round(winningTrades / totalTrades * 100)` (0 for an empty range).
Both are finite numbers, never `NaN`. -/
theorem claim1_winRate (s : Storage) (a b : ℤ) :
    (MemStorage.getTradingStats s a b).winRate
      = .num (specWinRate (numericPnls (MemStorage.getTradeReviews s a b)))
    ∧ (DatabaseStorage.getTradingStats s a b).winRate
      = .num (dbWinRateValue (DatabaseStorage.getTradeReviews s a b)) := by
  constructor
  · rw [MemStorage.getTradingStats, memStats_eq]
  · rw [DatabaseStorage.getTradingStats, dbStats_eq]

/-- Trade-list store for the C2 counterexample: a single winning trade,
so there are wins and no losses. -/
def storeC2 : Storage := ⟨[], [], [⟨1, 5, .num 100, none⟩]⟩

/-- C2 counterexample: with one winning trade and no losing trade in
range, the claim requires the 999 sentinel, but
DatabaseStorage.getTradingStats returns 0 — the claim is false of the
database backend. -/
theorem claim2_counterexample :
    (DatabaseStorage.getTradingStats storeC2 0 10).totalTrades = 1
    ∧ (winsOf (numericPnls (DatabaseStorage.getTradeReviews storeC2 0 10))).length = 1
    ∧ (lossesOf (numericPnls (DatabaseStorage.getTradeReviews storeC2 0 10))).length = 0
    ∧ (DatabaseStorage.getTradingStats storeC2 0 10).profitFactor = JSNum.num 0
    ∧ (DatabaseStorage.getTradingStats storeC2 0 10).profitFactor ≠ JSNum.num 999 := by
  with_unfolding_all decide

/-- C2 (amended): for every date range, MemStorage.getTradingStats
returns `profitFactor = sum(wins) / sum(|losses|)` rounded to two
decimals, with the 999 sentinel when there are wins but no losses and 0
when there are neither; DatabaseStorage.getTradingStats instead returns
`avgWin / avgLoss` rounded to two decimals, and 0 — not 999 — whenever
there are no losses.  Both values are finite rationals, never `NaN` or
an infinity. -/
theorem claim2_profitFactor (s : Storage) (a b : ℤ) :
    (MemStorage.getTradingStats s a b).profitFactor
      = .num (specProfitFactor (numericPnls (MemStorage.getTradeReviews s a b)))
    ∧ (DatabaseStorage.getTradingStats s a b).profitFactor
      = .num (dbProfitFactorValue (numericPnls (DatabaseStorage.getTradeReviews s a b))) := by
  constructor
  · rw [MemStorage.getTradingStats, memStats_eq]
  · rw [DatabaseStorage.getTradingStats, dbStats_eq]

/-- Trade-list store for the C5 counterexample: a single trade whose PnL
is a truthy but unparseable string. -/
def storeC5 : Storage := ⟨[], [], [⟨1, 5, .nonNumeric, none⟩]⟩

/-- C5 counterexample: a trade with an unparseable PnL is counted in
`totalTrades`, but DatabaseStorage.getTradingStats lets it poison
`totalPnL` to `NaN` instead of contributing nothing — the claim is false
of the database backend. -/
theorem claim5_counterexample :
    (DatabaseStorage.getTradingStats storeC5 0 10).totalTrades = 1
    ∧ (DatabaseStorage.getTradingStats storeC5 0 10).totalPnL = JSNum.nan
    ∧ (DatabaseStorage.getTradingStats storeC5 0 10).totalPnL
        ≠ JSNum.num (specTotalPnL (numericPnls (DatabaseStorage.getTradeReviews storeC5 0 10))) := by
  with_unfolding_all decide

/-- C5 (amended): trades with an absent or unparseable PnL count toward
`totalTrades` in both backends, and in MemStorage they contribute nothing
to `winRate`, `totalPnL`, `avgWin`, `avgLoss` or `profitFactor` (those
fields equal the statistics of the parseable trades alone, and `totalPnL`
is a finite number, never `NaN`).  In DatabaseStorage, such trades still
contribute nothing to the win/loss partitioning, `avgWin`, `avgLoss` and
`profitFactor`, but a truthy unparseable PnL in range makes `totalPnL`
`NaN`. -/
theorem claim5_unparseable (s : Storage) (a b : ℤ) :
    ((MemStorage.getTradingStats s a b).totalTrades
        = (MemStorage.getTradeReviews s a b).length
      ∧ (MemStorage.getTradingStats s a b).winRate
        = (MemStorage.tradingStatsOf
            ((MemStorage.getTradeReviews s a b).filter hasNumericPnl)).winRate
      ∧ (MemStorage.getTradingStats s a b).totalPnL
        = (MemStorage.tradingStatsOf
            ((MemStorage.getTradeReviews s a b).filter hasNumericPnl)).totalPnL
      ∧ (MemStorage.getTradingStats s a b).avgWin
        = (MemStorage.tradingStatsOf
            ((MemStorage.getTradeReviews s a b).filter hasNumericPnl)).avgWin
      ∧ (MemStorage.getTradingStats s a b).avgLoss
        = (MemStorage.tradingStatsOf
            ((MemStorage.getTradeReviews s a b).filter hasNumericPnl)).avgLoss
      ∧ (MemStorage.getTradingStats s a b).profitFactor
        = (MemStorage.tradingStatsOf
            ((MemStorage.getTradeReviews s a b).filter hasNumericPnl)).profitFactor
      ∧ (MemStorage.getTradingStats s a b).totalPnL
        = .num (specTotalPnL (numericPnls (MemStorage.getTradeReviews s a b))))
    ∧ ((DatabaseStorage.getTradingStats s a b).totalTrades
        = (DatabaseStorage.getTradeReviews s a b).length
      ∧ (DatabaseStorage.getTradingStats s a b).avgWin
        = .num (specAvgWin (numericPnls (DatabaseStorage.getTradeReviews s a b)))
      ∧ (DatabaseStorage.getTradingStats s a b).avgLoss
        = .num (specAvgLoss (numericPnls (DatabaseStorage.getTradeReviews s a b)))
      ∧ (DatabaseStorage.getTradingStats s a b).profitFactor
        = .num (dbProfitFactorValue (numericPnls (DatabaseStorage.getTradeReviews s a b)))
      ∧ ((∃ t ∈ DatabaseStorage.getTradeReviews s a b, t.pnl = .nonNumeric) →
          (DatabaseStorage.getTradingStats s a b).totalPnL = JSNum.nan)) := by
  constructor
  · rw [MemStorage.getTradingStats, memStats_eq, memStats_eq, numericPnls_filter]
    refine ⟨rfl, rfl, rfl, rfl, rfl, rfl, rfl⟩
  · rw [DatabaseStorage.getTradingStats, dbStats_eq]
    refine ⟨rfl, rfl, rfl, rfl, ?_⟩
    intro hx
    simp [hx]

/-- C5 witness: at the concrete store with one unparseable-PnL trade, the
theorem's `NaN` clause fires. -/
theorem claim5_witness :
    (∃ t ∈ DatabaseStorage.getTradeReviews storeC5 0 10, t.pnl = .nonNumeric)
    ∧ (DatabaseStorage.getTradingStats storeC5 0 10).totalPnL = JSNum.nan :=
  ⟨by decide, (claim5_unparseable storeC5 0 10).2.2.2.2.2 (by decide)⟩

/-! ### Claims C6, C7 — weekly progress -/

theorem length_dayRange (a b : ℤ) : (dayRange a b).length = (b + 1 - a).toNat := by
  unfold dayRange
  rw [List.length_map, List.length_range]

theorem mem_dayRange {a b d : ℤ} : d ∈ dayRange a b ↔ a ≤ d ∧ d ≤ b := by
  simp only [dayRange, List.mem_map, List.mem_range]
  constructor
  · rintro ⟨i, hi, rfl⟩
    omega
  · intro ⟨h1, h2⟩
    exact ⟨(d - a).toNat, by omega, by omega⟩

theorem pairwise_dayRange (a b : ℤ) : (dayRange a b).Pairwise (· < ·) := by
  unfold dayRange
  refine List.Pairwise.map _ ?_ (List.pairwise_lt_range _)
  intro i j hij
  have h2 : i < j := hij
  show a + (i : ℤ) < a + (j : ℤ)
  omega

/-- The dates of the in-memory weekly series are exactly the day range. -/
theorem memWeekly_dates (s : Storage) (a b : ℤ) :
    (MemStorage.getWeeklyProgress s a b).map Prod.fst = dayRange a b := by
  rw [MemStorage.getWeeklyProgress, memWeeklyCore, List.map_map]
  exact (List.map_congr_left fun a _ => rfl).trans (List.map_id _)

/-- The dates of the database weekly series are exactly the day range. -/
theorem dbWeekly_dates (s : Storage) (a b : ℤ) :
    (DatabaseStorage.getWeeklyProgress s a b).map Prod.fst = dayRange a b := by
  rw [DatabaseStorage.getWeeklyProgress, List.map_map]
  exact (List.map_congr_left fun a _ => rfl).trans (List.map_id _)

/-- Store for the C6 and C7 witnesses: one habit, soft-deleted, with a
stray completion record. -/
def storeC6 : Storage := ⟨[⟨1, "h", false⟩], [⟨1, 3, true⟩], []⟩

/-- C6: with zero active habits, every day of the weekly series has
completion rate 0 in both backends — the division is guarded, so the
result is the number 0, not `NaN`, and no error is possible (the
embedding is a total function). -/
theorem claim6_zeroHabitsRate (s : Storage) (a b : ℤ)
    (h : MemStorage.getHabits s = []) :
    (∀ e ∈ MemStorage.getWeeklyProgress s a b, e.2 = 0)
    ∧ (∀ e ∈ DatabaseStorage.getWeeklyProgress s a b, e.2 = 0) := by
  have hdb : DatabaseStorage.getHabits s = [] := h
  constructor
  · intro e he
    rw [MemStorage.getWeeklyProgress, h] at he
    obtain ⟨day, _, rfl⟩ := List.mem_map.mp he
    simp [memWeeklyCore] at he ⊢
  · intro e he
    rw [DatabaseStorage.getWeeklyProgress] at he
    obtain ⟨day, _, rfl⟩ := List.mem_map.mp he
    simp [hdb]

/-- C6 witness: a store whose only habit is soft-deleted, over a
three-day range. -/
theorem claim6_witness :
    MemStorage.getHabits storeC6 = []
    ∧ ((∀ e ∈ MemStorage.getWeeklyProgress storeC6 0 2, e.2 = 0)
      ∧ (∀ e ∈ DatabaseStorage.getWeeklyProgress storeC6 0 2, e.2 = 0)) :=
  ⟨by decide, claim6_zeroHabitsRate storeC6 0 2 (by decide)⟩

/-- C7: for a start date not after the end date, both backends' weekly
series have one entry per calendar day of the inclusive range: the length
is the inclusive day count, the dates are exactly the range in strictly
ascending order, and a day is listed iff it lies in the range. -/
theorem claim7_weeklySeriesShape (s : Storage) (a b : ℤ) (hab : a ≤ b) :
    ((MemStorage.getWeeklyProgress s a b).length = (b - a + 1).toNat
      ∧ (MemStorage.getWeeklyProgress s a b).map Prod.fst = dayRange a b
      ∧ ((MemStorage.getWeeklyProgress s a b).map Prod.fst).Pairwise (· < ·)
      ∧ ∀ d : ℤ, (a ≤ d ∧ d ≤ b) ↔ d ∈ (MemStorage.getWeeklyProgress s a b).map Prod.fst)
    ∧ ((DatabaseStorage.getWeeklyProgress s a b).length = (b - a + 1).toNat
      ∧ (DatabaseStorage.getWeeklyProgress s a b).map Prod.fst = dayRange a b
      ∧ ((DatabaseStorage.getWeeklyProgress s a b).map Prod.fst).Pairwise (· < ·)
      ∧ ∀ d : ℤ, (a ≤ d ∧ d ≤ b) ↔ d ∈ (DatabaseStorage.getWeeklyProgress s a b).map Prod.fst) := by
  have hm := memWeekly_dates s a b
  have hd := dbWeekly_dates s a b
  have hlen : (dayRange a b).length = (b - a + 1).toNat := by
    rw [length_dayRange]; omega
  constructor
  · refine ⟨?_, hm, ?_, ?_⟩
    · have := congrArg List.length hm
      simpa [hlen] using this
    · rw [hm]; exact pairwise_dayRange a b
    · intro d; rw [hm]; exact mem_dayRange.symm
  · refine ⟨?_, hd, ?_, ?_⟩
    · have := congrArg List.length hd
      simpa [hlen] using this
    · rw [hd]; exact pairwise_dayRange a b
    · intro d; rw [hd]; exact mem_dayRange.symm

/-- C7 witness: the three-day range 0..2 on a concrete store. -/
theorem claim7_witness :
    (0 : ℤ) ≤ 2
    ∧ ((MemStorage.getWeeklyProgress storeC6 0 2).length = ((2 : ℤ) - 0 + 1).toNat
      ∧ (MemStorage.getWeeklyProgress storeC6 0 2).map Prod.fst = dayRange 0 2
      ∧ ((MemStorage.getWeeklyProgress storeC6 0 2).map Prod.fst).Pairwise (· < ·)
      ∧ ∀ d : ℤ, ((0 : ℤ) ≤ d ∧ d ≤ 2) ↔ d ∈ (MemStorage.getWeeklyProgress storeC6 0 2).map Prod.fst)
    ∧ ((DatabaseStorage.getWeeklyProgress storeC6 0 2).length = ((2 : ℤ) - 0 + 1).toNat
      ∧ (DatabaseStorage.getWeeklyProgress storeC6 0 2).map Prod.fst = dayRange 0 2
      ∧ ((DatabaseStorage.getWeeklyProgress storeC6 0 2).map Prod.fst).Pairwise (· < ·)
      ∧ ∀ d : ℤ, ((0 : ℤ) ≤ d ∧ d ≤ 2) ↔ d ∈ (DatabaseStorage.getWeeklyProgress storeC6 0 2).map Prod.fst) :=
  ⟨by decide, claim7_weeklySeriesShape storeC6 0 2 (by decide)⟩

/-! ### Claim C3 — monthly best streak -/

/-- Length of the leading run of 100% days in a rate series. -/
def lead100 : List ℤ → ℕ
  | [] => 0
  | r :: t => if r = 100 then lead100 t + 1 else 0

/-- Modelled from the spec: the maximum run length of consecutive
100%-rate days in a rate series — the largest leading run over all
suffixes. -/
def maxRun100 : List ℤ → ℕ
  | [] => 0
  | r :: t => max (lead100 (r :: t)) (maxRun100 t)

theorem lead100_le_maxRun100 (l : List ℤ) : lead100 l ≤ maxRun100 l := by
  cases l with
  | nil => exact le_refl _
  | cons r t => exact le_max_left _ _

theorem bestStreakScan_go (l : List ℤ) :
    ∀ best cur : ℕ, cur ≤ best →
      (l.foldl
        (fun (acc : ℕ × ℕ) r =>
          if r = 100 then (max acc.1 (acc.2 + 1), acc.2 + 1) else (acc.1, 0))
        (best, cur)).1
      = max best (max (cur + lead100 l) (maxRun100 l)) := by
  induction l with
  | nil =>
      intro best cur h
      simp only [List.foldl_nil, lead100, maxRun100]
      omega
  | cons r t ih =>
      intro best cur h
      by_cases hr : r = 100
      · rw [List.foldl_cons, if_pos hr,
          ih (max best (cur + 1)) (cur + 1) (le_max_right _ _)]
        simp only [lead100, maxRun100, if_pos hr]
        omega
      · rw [List.foldl_cons, if_neg hr, ih best 0 (Nat.zero_le _)]
        have hlt := lead100_le_maxRun100 t
        simp only [lead100, maxRun100, if_neg hr]
        omega

/-- The source's run-length scan computes the maximum run of 100% days. -/
theorem bestStreakScan_eq (l : List ℤ) : bestStreakScan l = maxRun100 l := by
  have h := bestStreakScan_go l 0 0 (le_refl 0)
  have hle := lead100_le_maxRun100 l
  rw [bestStreakScan, h]
  omega

/-- Store for the C3 failing input: one active habit, completed on
2024-03-01 only. -/
def storeC3 : Storage := ⟨[⟨1, "h", true⟩], [⟨1, dateToZ 2024 3 1, true⟩], []⟩

/-- C3: MemStorage.getMonthlyStats returns `bestStreak` equal to the
maximum run of consecutive 100%-rate days of the month's weekly-progress
series, exactly as the claim states; but DatabaseStorage.getMonthlyStats
never updates its `bestStreak` variable and returns 0 even for a March
2024 store whose series contains a 100% day (maximum run 1) — the
database backend contradicts the claim and the spec flags this dead
variable as a defect. -/
theorem claim3_monthlyBestStreak :
    (∀ (s : Storage) (y m : ℕ),
      (MemStorage.getMonthlyStats s y m).bestStreak
        = maxRun100 ((MemStorage.getWeeklyProgress s (dateToZ y m 1)
            (dateToZ y m (daysInMonth y m))).map Prod.snd))
    ∧ ((DatabaseStorage.getMonthlyStats storeC3 2024 3).bestStreak = 0
      ∧ maxRun100 ((DatabaseStorage.getWeeklyProgress storeC3 (dateToZ 2024 3 1)
          (dateToZ 2024 3 31)).map Prod.snd) = 1) := by
  refine ⟨?_, rfl, ?_⟩
  · intro s y m
    show bestStreakScan ((MemStorage.getWeeklyProgress s (dateToZ y m 1)
        (dateToZ y m (daysInMonth y m))).map Prod.snd) = _
    exact bestStreakScan_eq _
  · with_unfolding_all decide

/-! ### Claim C8 — monthly perfect days -/

theorem daysInMonth_pos (y m : ℕ) : 1 ≤ daysInMonth y m := by
  unfold daysInMonth
  split_ifs <;> omega

theorem monthDates_length (y m : ℕ) : (monthDates y m).length = daysInMonth y m := by
  unfold monthDates
  rw [length_dayRange]
  unfold dateToZ dateToNat
  have := daysInMonth_pos y m
  omega

/-- The day list of DatabaseStorage.getMonthlyStats is the month's day
range. -/
theorem dbMonthDays_eq (y m : ℕ) :
    (List.range (daysInMonth y m)).map (fun k : ℕ => dateToZ y m (k + 1))
      = monthDates y m := by
  unfold monthDates dayRange
  have hlen : ((dateToZ y m (daysInMonth y m)) + 1 - dateToZ y m 1).toNat
      = daysInMonth y m := by
    unfold dateToZ dateToNat
    have := daysInMonth_pos y m
    omega
  rw [hlen]
  apply List.map_congr_left
  intro k _
  unfold dateToZ dateToNat
  omega

/-- Under the upsert key-uniqueness invariant, the completion lookup
succeeds exactly when a completed record exists for the key. -/
theorem lookupCompleted_iff (comps : List HabitCompletion)
    (hu : ∀ c₁ ∈ comps, ∀ c₂ ∈ comps,
      c₁.habitId = c₂.habitId → c₁.date = c₂.date → c₁ = c₂)
    (hid : ℕ) (day : ℤ) :
    lookupCompleted comps hid day = true
      ↔ ∃ c ∈ comps, c.habitId = hid ∧ c.date = day ∧ c.completed = true := by
  unfold lookupCompleted completedOnList
  cases hfind : (comps.filter (·.habitId = hid)).find? (fun c => c.date = day) with
  | none =>
      simp only [hfind]
      constructor
      · intro h
        exact absurd h (by simp)
      · rintro ⟨c, hcm, hid2, hdate, hcomp⟩
        have hcf : c ∈ comps.filter (·.habitId = hid) :=
          List.mem_filter.mpr ⟨hcm, by simp [hid2]⟩
        have := List.find?_eq_none.mp hfind c hcf
        simp [hdate] at this
  | some c' =>
      simp only [hfind]
      have hc'm := List.mem_of_find?_eq_some hfind
      have hd' : c'.date = day := by simpa using List.find?_some hfind
      obtain ⟨hc'c, hc'id0⟩ := List.mem_filter.mp hc'm
      have hc'id : c'.habitId = hid := by simpa using hc'id0
      constructor
      · intro h
        exact ⟨c', hc'c, hc'id, hd', h⟩
      · rintro ⟨c, hcm, hid2, hdate, hcomp⟩
        have hcc : c' = c := hu c' hc'c c hcm (by rw [hc'id, hid2]) (by rw [hd', hdate])
        rw [hcc]
        exact hcomp

/-- Modelled from the spec: a perfect day has every active habit
completed, and a month with no active habits has no perfect days;
`specPerfectDays` counts them over the month. -/
def specPerfectDays (habits : List Habit) (comps : List HabitCompletion)
    (y m : ℕ) : ℕ :=
  ((monthDates y m).filter (fun day => decide (habits ≠ [] ∧ ∀ h ∈ habits,
      ∃ c ∈ comps, c.habitId = h.id ∧ c.date = day ∧ c.completed = true))).length

/-- The source's per-day perfect-day test agrees with the spec's
predicate under the upsert invariant. -/
theorem perfect_day_cond (habits : List Habit) (comps : List HabitCompletion)
    (hu : ∀ c₁ ∈ comps, ∀ c₂ ∈ comps,
      c₁.habitId = c₂.habitId → c₁.date = c₂.date → c₁ = c₂)
    (day : ℤ) :
    (decide (dayCompletions habits comps day = habits.length)
        && decide (habits.length > 0))
      = decide (habits ≠ [] ∧ ∀ h ∈ habits,
          ∃ c ∈ comps, c.habitId = h.id ∧ c.date = day ∧ c.completed = true) := by
  have hiff : (dayCompletions habits comps day = habits.length ∧ habits.length > 0)
      ↔ (habits ≠ [] ∧ ∀ h ∈ habits,
          ∃ c ∈ comps, c.habitId = h.id ∧ c.date = day ∧ c.completed = true) := by
    unfold dayCompletions
    rw [← List.countP_eq_length_filter, List.countP_eq_length]
    constructor
    · rintro ⟨hall, hpos⟩
      refine ⟨by intro hnil; simp [hnil] at hpos, ?_⟩
      intro h hh
      exact (lookupCompleted_iff comps hu h.id day).mp (by simpa using hall h hh)
    · rintro ⟨hne, hall⟩
      refine ⟨?_, by simpa [List.length_pos] using hne⟩
      intro h hh
      simpa using (lookupCompleted_iff comps hu h.id day).mpr (hall h hh)
  calc (decide (dayCompletions habits comps day = habits.length)
        && decide (habits.length > 0))
      = decide (dayCompletions habits comps day = habits.length ∧ habits.length > 0) :=
        (Bool.decide_and _ _).symm
    _ = _ := by rw [decide_eq_decide]; exact hiff

/-- Store for the C8 witness: one active habit completed on the first
two days of February 2024. -/
def storeC8 : Storage :=
  ⟨[⟨1, "h", true⟩], [⟨1, dateToZ 2024 2 1, true⟩, ⟨1, dateToZ 2024 2 2, true⟩], []⟩

/-- C8: in both backends, getMonthlyStats returns `perfectDays` equal to
the number of days of the month on which every active habit has a
completed record; it is 0 when there are no active habits, and it never
exceeds the number of days in the month. -/
theorem claim8_perfectDays (s : Storage) (y m : ℕ)
    (hu : completionsKeyUnique s) (hm1 : 1 ≤ m) (hm2 : m ≤ 12) :
    ((MemStorage.getMonthlyStats s y m).perfectDays
        = specPerfectDays (MemStorage.getHabits s) s.habitCompletions y m
      ∧ (MemStorage.getMonthlyStats s y m).perfectDays ≤ daysInMonth y m
      ∧ (MemStorage.getHabits s = [] → (MemStorage.getMonthlyStats s y m).perfectDays = 0))
    ∧ ((DatabaseStorage.getMonthlyStats s y m).perfectDays
        = specPerfectDays (DatabaseStorage.getHabits s) s.habitCompletions y m
      ∧ (DatabaseStorage.getMonthlyStats s y m).perfectDays ≤ daysInMonth y m
      ∧ (DatabaseStorage.getHabits s = [] →
          (DatabaseStorage.getMonthlyStats s y m).perfectDays = 0)) := by
  have hmem0 : (MemStorage.getMonthlyStats s y m).perfectDays
      = ((monthDates y m).filter (fun day =>
          decide (dayCompletions (MemStorage.getHabits s) s.habitCompletions day
            = (MemStorage.getHabits s).length)
          && decide ((MemStorage.getHabits s).length > 0))).length := rfl
  have hdb0 : (DatabaseStorage.getMonthlyStats s y m).perfectDays
      = (((List.range (daysInMonth y m)).map (fun k : ℕ => dateToZ y m (k + 1))).filter
          (fun day =>
            decide (dayCompletions (DatabaseStorage.getHabits s) s.habitCompletions day
              = (DatabaseStorage.getHabits s).length)
            && decide ((DatabaseStorage.getHabits s).length > 0))).length := rfl
  rw [hmem0, hdb0, dbMonthDays_eq]
  have hcong : ∀ habits : List Habit,
      ((monthDates y m).filter (fun day =>
          decide (dayCompletions habits s.habitCompletions day = habits.length)
          && decide (habits.length > 0))).length
      = specPerfectDays habits s.habitCompletions y m := by
    intro habits
    unfold specPerfectDays
    congr 1
    apply List.filter_congr
    intro day _
    exact perfect_day_cond habits s.habitCompletions hu day
  have hbound : ∀ p : ℤ → Bool,
      ((monthDates y m).filter p).length ≤ daysInMonth y m := by
    intro p
    calc ((monthDates y m).filter p).length ≤ (monthDates y m).length :=
          List.length_filter_le _ _
      _ = daysInMonth y m := monthDates_length y m
  refine ⟨⟨hcong _, hbound _, ?_⟩, ⟨hcong _, hbound _, ?_⟩⟩
  · intro h0
    simp [h0]
  · intro h0
    simp [h0]

/-- C8 witness: February 2024 on a store with one habit completed on the
first two days. -/
theorem claim8_witness :
    completionsKeyUnique storeC8
    ∧ 1 ≤ 2 ∧ 2 ≤ 12
    ∧ (((MemStorage.getMonthlyStats storeC8 2024 2).perfectDays
        = specPerfectDays (MemStorage.getHabits storeC8) storeC8.habitCompletions 2024 2
      ∧ (MemStorage.getMonthlyStats storeC8 2024 2).perfectDays ≤ daysInMonth 2024 2
      ∧ (MemStorage.getHabits storeC8 = [] →
          (MemStorage.getMonthlyStats storeC8 2024 2).perfectDays = 0))
    ∧ ((DatabaseStorage.getMonthlyStats storeC8 2024 2).perfectDays
        = specPerfectDays (DatabaseStorage.getHabits storeC8) storeC8.habitCompletions 2024 2
      ∧ (DatabaseStorage.getMonthlyStats storeC8 2024 2).perfectDays ≤ daysInMonth 2024 2
      ∧ (DatabaseStorage.getHabits storeC8 = [] →
          (DatabaseStorage.getMonthlyStats storeC8 2024 2).perfectDays = 0))) :=
  ⟨by decide, by decide, by decide,
    claim8_perfectDays storeC8 2024 2 (by decide) (by decide) (by decide)⟩

/-! ### Claim C4 — habit streaks -/

/-- The bounded backward walk counts exactly `k` when the `k` days ending
at `ref` all look up completed and the day before the run (when still
within the cap) does not. -/
theorem streakFrom_eq (look : ℤ → Bool) :
    ∀ (k fuel : ℕ) (ref : ℤ), k ≤ fuel →
      (∀ i : ℕ, i < k → look (ref - i) = true) →
      (k < fuel → look (ref - k) = false) →
      streakFrom look fuel ref = k := by
  intro k
  induction k with
  | zero =>
      intro fuel ref _ _ hstop
      cases fuel with
      | zero => rfl
      | succ f =>
          have h0 : look ref = false := by simpa using hstop (by omega)
          show (if look ref then streakFrom look f (ref - 1) + 1 else 0) = 0
          rw [if_neg (by simp [h0])]
  | succ k ih =>
      intro fuel ref hk hall hstop
      cases fuel with
      | zero => exact absurd hk (by omega)
      | succ f =>
          have h0 : look ref = true := by simpa using hall 0 (by omega)
          have hrec : streakFrom look f (ref - 1) = k := by
            apply ih f (ref - 1) (by omega)
            · intro i hi
              have h2 := hall (i + 1) (by omega)
              have he : ref - ((i + 1 : ℕ) : ℤ) = ref - 1 - (i : ℤ) := by
                push_cast
                ring
              rw [he] at h2
              exact h2
            · intro hf
              have h2 := hstop (by omega)
              have he : ref - ((k + 1 : ℕ) : ℤ) = ref - 1 - (k : ℤ) := by
                push_cast
                ring
              rw [he] at h2
              exact h2
          show (if look ref then streakFrom look f (ref - 1) + 1 else 0) = k + 1
          rw [if_pos h0, hrec]

/-- Store for the C4 counterexample and witness: one active habit
completed on 2024-02-29 through 2024-03-03, a four-day run crossing the
month boundary, with no record on 2024-02-28. -/
def storeC4 : Storage :=
  ⟨[⟨1, "h", true⟩],
   [⟨1, dateToZ 2024 2 29, true⟩, ⟨1, dateToZ 2024 3 1, true⟩,
    ⟨1, dateToZ 2024 3 2, true⟩, ⟨1, dateToZ 2024 3 3, true⟩], []⟩

/-- C4 counterexample: the habit of `storeC4` satisfies the claim's
premises with k = 4 at reference date 2024-03-03 (completed on the four
days ending there, not completed the day before), yet
DatabaseStorage.getHabitsWithStats reports `currentStreak = 3`: its walk
reads only the reference month's records and stops at the month start, so
the claim's "regardless of calendar-month boundaries" fails on the
database backend. -/
theorem claim4_counterexample :
    (∀ i : ℕ, i < 4 → ∃ c ∈ storeC4.habitCompletions,
        c.habitId = 1 ∧ c.date = dateToZ 2024 3 3 - i ∧ c.completed = true)
    ∧ ¬ (∃ c ∈ storeC4.habitCompletions,
        c.habitId = 1 ∧ c.date = dateToZ 2024 3 3 - 4 ∧ c.completed = true)
    ∧ (DatabaseStorage.getHabitsWithStats storeC4 2024 3 3).map
        (fun e => (e.id, e.currentStreak)) = [(1, 3)] := by
  decide

/-- C4 (amended): in MemStorage, if a habit has a completed record on
each of the `k ≤ 365` days ending at the reference date and (when
`k < 365`) none on the day before that run, getHabitsWithStats reports
`currentStreak = k`, counting straight across calendar-month boundaries;
DatabaseStorage's walk instead stops at the first day of the reference
month (see the counterexample). -/
theorem claim4_memStreak (s : Storage) (y m d : ℕ) (hab : Habit) (k : ℕ)
    (hu : completionsKeyUnique s)
    (hmem : hab ∈ s.habits) (hact : hab.isActive = true)
    (hk : k ≤ 365)
    (hall : ∀ i : ℕ, i < k → ∃ c ∈ s.habitCompletions,
        c.habitId = hab.id ∧ c.date = dateToZ y m d - i ∧ c.completed = true)
    (hstop : k < 365 → ¬ ∃ c ∈ s.habitCompletions,
        c.habitId = hab.id ∧ c.date = dateToZ y m d - k ∧ c.completed = true) :
    (∃ e ∈ MemStorage.getHabitsWithStats s y m d, e.id = hab.id)
    ∧ ∀ e ∈ MemStorage.getHabitsWithStats s y m d, e.id = hab.id →
        e.currentStreak = k := by
  have hhact : hab ∈ MemStorage.getHabits s :=
    List.mem_filter.mpr ⟨hmem, by simp [hact]⟩
  constructor
  · exact ⟨MemStorage.habitStats s.habitCompletions y m d hab,
      List.mem_map_of_mem _ hhact, rfl⟩
  · intro e he hid
    obtain ⟨h2, hh2, rfl⟩ := List.mem_map.mp he
    have hid2 : h2.id = hab.id := hid
    show streakFrom
      (fun day => completedOnList (s.habitCompletions.filter (·.habitId = h2.id)) day)
      365 (dateToZ y m d) = k
    rw [hid2]
    apply streakFrom_eq _ k 365 (dateToZ y m d) hk
    · intro i hi
      exact (lookupCompleted_iff s.habitCompletions hu hab.id _).mpr (hall i hi)
    · intro hf
      exact Bool.eq_false_iff.mpr
        (fun hcon => hstop hf ((lookupCompleted_iff s.habitCompletions hu hab.id _).mp hcon))

/-- C4 witness: the four-day cross-month run of `storeC4` yields
`currentStreak = 4` from MemStorage.getHabitsWithStats. -/
theorem claim4_witness :
    completionsKeyUnique storeC4
    ∧ ((∃ e ∈ MemStorage.getHabitsWithStats storeC4 2024 3 3, e.id = 1)
      ∧ ∀ e ∈ MemStorage.getHabitsWithStats storeC4 2024 3 3, e.id = 1 →
          e.currentStreak = 4) :=
  ⟨by decide,
    claim4_memStreak storeC4 2024 3 3 ⟨1, "h", true⟩ 4 (by decide) (by decide)
      (by decide) (by decide) (by decide) (by decide)⟩

/-! ### Claim C9 — soft-deleted habits -/

/-- After deactivating the entry keyed `id`, lookup by id still finds it,
now inactive. -/
theorem deactivate_find (l : List Habit) (id : ℕ) (hab : Habit)
    (hf : l.find? (·.id = id) = some hab) :
    (l.map (fun x => if x.id = id then { x with isActive := false } else x)).find?
        (·.id = id) = some { hab with isActive := false } := by
  induction l with
  | nil => simp at hf
  | cons a t ih =>
      by_cases ha : a.id = id
      · rw [List.find?_cons_of_pos _ (by simpa using ha)] at hf
        rw [List.map_cons, List.find?_cons_of_pos _ (by simp [ha])]
        simp only [Option.some.injEq] at hf ⊢
        rw [if_pos ha, ← hf]
      · rw [List.find?_cons_of_neg _ (by simpa using ha)] at hf
        rw [List.map_cons, List.find?_cons_of_neg _ (by simp [ha])]
        exact ih hf

/-- No habit with the deactivated key survives the active filter. -/
theorem deactivated_not_active (l : List Habit) (id : ℕ) :
    ∀ x ∈ (l.map (fun h => if h.id = id then { h with isActive := false } else h)).filter
        (·.isActive), x.id ≠ id := by
  intro x hx
  obtain ⟨hxm, hxa⟩ := List.mem_filter.mp hx
  obtain ⟨a, _, rfl⟩ := List.mem_map.mp hxm
  by_cases ha : a.id = id
  · simp [ha] at hxa
  · simpa [ha] using ha

/-- Every habit with the deactivated key is inactive after the delete. -/
theorem deactivated_inactive (l : List Habit) (id : ℕ) :
    ∀ x ∈ l.map (fun h => if h.id = id then { h with isActive := false } else h),
      x.id = id → x.isActive = false := by
  intro x hx hxid
  obtain ⟨a, _, rfl⟩ := List.mem_map.mp hx
  by_cases ha : a.id = id
  · simp [ha]
  · rw [if_neg ha] at hxid ⊢
    exact absurd hxid ha

/-- Physically removing rows whose key holds only inactive habits does
not change the active list. -/
theorem filter_active_erase (l : List Habit) (id : ℕ)
    (h : ∀ x ∈ l, x.id = id → x.isActive = false) :
    (l.filter (fun x => ¬ x.id = id)).filter (·.isActive)
      = l.filter (·.isActive) := by
  rw [List.filter_filter]
  apply List.filter_congr
  intro x hx
  by_cases hid : x.id = id
  · have hact := h x hx hid
    simp [hact, hid]
  · simp [hid]

/-- A store in which every habit keyed `id` is inactive computes the same
weekly, monthly and per-habit aggregations after physically erasing that
key: the soft-deleted habit contributes nothing. -/
theorem agg_erase_invariant (s2 : Storage) (id : ℕ)
    (h : ∀ x ∈ s2.habits, x.id = id → x.isActive = false) :
    (∀ a b : ℤ, MemStorage.getWeeklyProgress s2 a b
        = MemStorage.getWeeklyProgress (eraseHabit s2 id) a b)
    ∧ (∀ y m : ℕ, MemStorage.getMonthlyStats s2 y m
        = MemStorage.getMonthlyStats (eraseHabit s2 id) y m)
    ∧ (∀ y m d : ℕ, MemStorage.getHabitsWithStats s2 y m d
        = MemStorage.getHabitsWithStats (eraseHabit s2 id) y m d) := by
  have hfe : MemStorage.getHabits (eraseHabit s2 id) = MemStorage.getHabits s2 :=
    filter_active_erase _ _ h
  have hcc : (eraseHabit s2 id).habitCompletions = s2.habitCompletions := rfl
  refine ⟨?_, ?_, ?_⟩
  · intro a b
    unfold MemStorage.getWeeklyProgress
    rw [hfe, hcc]
  · intro y m
    simp only [MemStorage.getMonthlyStats, MemStorage.getWeeklyProgress]
    rw [hfe, hcc]
  · intro y m d
    unfold MemStorage.getHabitsWithStats
    rw [hfe, hcc]

/-- C9: soft delete keeps the habit retrievable by id with
`isActive = false`, removes it from both backends' active lists, keeps it
out of every entry of getHabitsWithStats, and makes it contribute nothing
to getWeeklyProgress, getMonthlyStats or getHabitsWithStats: each
aggregation is unchanged if the soft-deleted row is physically erased.
The store `s` is arbitrary, so the invariant holds in every reachable
state. -/
theorem claim9_softDelete (s : Storage) (id : ℕ) (hab : Habit)
    (hget : MemStorage.getHabit s id = some hab) :
    (MemStorage.deleteHabit s id).2 = true
    ∧ MemStorage.getHabit (MemStorage.deleteHabit s id).1 id
        = some { hab with isActive := false }
    ∧ (∀ h2 ∈ MemStorage.getHabits (MemStorage.deleteHabit s id).1, h2.id ≠ id)
    ∧ (∀ h2 ∈ DatabaseStorage.getHabits (MemStorage.deleteHabit s id).1, h2.id ≠ id)
    ∧ (∀ y m d : ℕ, ∀ e ∈ MemStorage.getHabitsWithStats (MemStorage.deleteHabit s id).1 y m d,
          e.id ≠ id)
    ∧ (∀ a b : ℤ, MemStorage.getWeeklyProgress (MemStorage.deleteHabit s id).1 a b
        = MemStorage.getWeeklyProgress (eraseHabit (MemStorage.deleteHabit s id).1 id) a b)
    ∧ (∀ y m : ℕ, MemStorage.getMonthlyStats (MemStorage.deleteHabit s id).1 y m
        = MemStorage.getMonthlyStats (eraseHabit (MemStorage.deleteHabit s id).1 id) y m)
    ∧ (∀ y m d : ℕ, MemStorage.getHabitsWithStats (MemStorage.deleteHabit s id).1 y m d
        = MemStorage.getHabitsWithStats (eraseHabit (MemStorage.deleteHabit s id).1 id) y m d) := by
  rw [MemStorage.getHabit] at hget
  have hdel : MemStorage.deleteHabit s id
      = ({ s with habits :=
            s.habits.map (fun h => if h.id = id then { h with isActive := false } else h) },
         true) := by
    unfold MemStorage.deleteHabit
    rw [hget]
  rw [hdel]
  dsimp only
  obtain ⟨hweek, hmonth, hhws⟩ :=
    agg_erase_invariant
      { s with habits :=
          s.habits.map (fun h => if h.id = id then { h with isActive := false } else h) }
      id (deactivated_inactive s.habits id)
  refine ⟨rfl, deactivate_find s.habits id hab hget, deactivated_not_active s.habits id,
    deactivated_not_active s.habits id, ?_, hweek, hmonth, hhws⟩
  intro y m d e he
  obtain ⟨h2, hh2, rfl⟩ := List.mem_map.mp he
  exact deactivated_not_active s.habits id h2 hh2

/-- Store for the C9 witness: two active habits, one with a completion
record. -/
def storeC9 : Storage := ⟨[⟨1, "h", true⟩, ⟨2, "g", true⟩], [⟨1, 5, true⟩], []⟩

/-- C9 witness: deleting habit 1 of `storeC9`. -/
theorem claim9_witness :
    MemStorage.getHabit storeC9 1 = some ⟨1, "h", true⟩
    ∧ ((MemStorage.deleteHabit storeC9 1).2 = true
      ∧ MemStorage.getHabit (MemStorage.deleteHabit storeC9 1).1 1 = some ⟨1, "h", false⟩
      ∧ (∀ h2 ∈ MemStorage.getHabits (MemStorage.deleteHabit storeC9 1).1, h2.id ≠ 1)
      ∧ (∀ h2 ∈ DatabaseStorage.getHabits (MemStorage.deleteHabit storeC9 1).1, h2.id ≠ 1)
      ∧ (∀ y m d : ℕ, ∀ e ∈ MemStorage.getHabitsWithStats (MemStorage.deleteHabit storeC9 1).1 y m d,
            e.id ≠ 1)
      ∧ (∀ a b : ℤ, MemStorage.getWeeklyProgress (MemStorage.deleteHabit storeC9 1).1 a b
          = MemStorage.getWeeklyProgress (eraseHabit (MemStorage.deleteHabit storeC9 1).1 1) a b)
      ∧ (∀ y m : ℕ, MemStorage.getMonthlyStats (MemStorage.deleteHabit storeC9 1).1 y m
          = MemStorage.getMonthlyStats (eraseHabit (MemStorage.deleteHabit storeC9 1).1 1) y m)
      ∧ (∀ y m d : ℕ, MemStorage.getHabitsWithStats (MemStorage.deleteHabit storeC9 1).1 y m d
          = MemStorage.getHabitsWithStats (eraseHabit (MemStorage.deleteHabit storeC9 1).1 1) y m d)) :=
  ⟨by decide, claim9_softDelete storeC9 1 ⟨1, "h", true⟩ (by decide)⟩

/-! ### Claim C10 — hard-deleted trade reviews -/

theorem filter_swap {α : Type} (l : List α) (p q : α → Bool) :
    (l.filter p).filter q = (l.filter q).filter p := by
  rw [List.filter_filter, List.filter_filter]
  congr 1
  funext a
  rw [Bool.and_comm]

/-- C10: deleteTradeReview physically removes the record in both
backends — it returns true exactly when the id existed, afterwards
getTradeReview finds nothing, no variant of the trade remains in the
store (there is no inactive flag to leave behind), and every
getTradingStats query computes as if the trade were filtered out of the
range. -/
theorem claim10_hardDelete (s : Storage) (id : ℕ) :
    ((MemStorage.deleteTradeReview s id).2 = true ↔ ∃ t ∈ s.tradeReviews, t.id = id)
    ∧ MemStorage.getTradeReview (MemStorage.deleteTradeReview s id).1 id = none
    ∧ (∀ t ∈ (MemStorage.deleteTradeReview s id).1.tradeReviews, t.id ≠ id)
    ∧ (∀ a b : ℤ, MemStorage.getTradingStats (MemStorage.deleteTradeReview s id).1 a b
        = MemStorage.tradingStatsOf
            ((MemStorage.getTradeReviews s a b).filter (fun t => ¬ t.id = id)))
    ∧ ((DatabaseStorage.deleteTradeReview s id).2 = true ↔ ∃ t ∈ s.tradeReviews, t.id = id)
    ∧ DatabaseStorage.getTradeReview (DatabaseStorage.deleteTradeReview s id).1 id = none
    ∧ (∀ a b : ℤ, DatabaseStorage.getTradingStats (DatabaseStorage.deleteTradeReview s id).1 a b
        = DatabaseStorage.tradingStatsOf
            ((DatabaseStorage.getTradeReviews s a b).filter (fun t => ¬ t.id = id))) := by
  have hnone : (s.tradeReviews.filter (fun t => ¬ t.id = id)).find?
      (fun t => t.id = id) = none := by
    apply List.find?_eq_none.mpr
    intro x hx
    have := (List.mem_filter.mp hx).2
    simpa using this
  have hany : (s.tradeReviews.any (·.id = id) = true ↔ ∃ t ∈ s.tradeReviews, t.id = id) := by
    simp [List.any_eq_true]
  have hstats : ∀ a b : ℤ,
      (s.tradeReviews.filter (fun t => ¬ t.id = id)).filter
          (fun t => decide (a ≤ t.date) && decide (t.date ≤ b))
        = ((s.tradeReviews.filter (fun t => decide (a ≤ t.date) && decide (t.date ≤ b))).filter
            (fun t => ¬ t.id = id)) := by
    intro a b
    exact filter_swap _ _ _
  refine ⟨hany, hnone, ?_, ?_, hany, hnone, ?_⟩
  · intro t ht
    have := (List.mem_filter.mp ht).2
    simpa using this
  · intro a b
    show MemStorage.tradingStatsOf _ = MemStorage.tradingStatsOf _
    exact congrArg _ (hstats a b)
  · intro a b
    show DatabaseStorage.tradingStatsOf _ = DatabaseStorage.tradingStatsOf _
    exact congrArg _ (hstats a b)

/-- Store for the C10 witness: two trades, one in the queried range. -/
def storeC10 : Storage := ⟨[], [], [⟨1, 5, .num 10, none⟩, ⟨2, 6, .absent, none⟩]⟩

/-- C10 witness: deleting trade 1 of `storeC10`. -/
theorem claim10_witness :
    ((MemStorage.deleteTradeReview storeC10 1).2 = true
        ↔ ∃ t ∈ storeC10.tradeReviews, t.id = 1)
    ∧ MemStorage.getTradeReview (MemStorage.deleteTradeReview storeC10 1).1 1 = none
    ∧ (∀ t ∈ (MemStorage.deleteTradeReview storeC10 1).1.tradeReviews, t.id ≠ 1)
    ∧ (∀ a b : ℤ, MemStorage.getTradingStats (MemStorage.deleteTradeReview storeC10 1).1 a b
        = MemStorage.tradingStatsOf
            ((MemStorage.getTradeReviews storeC10 a b).filter (fun t => ¬ t.id = 1)))
    ∧ ((DatabaseStorage.deleteTradeReview storeC10 1).2 = true
        ↔ ∃ t ∈ storeC10.tradeReviews, t.id = 1)
    ∧ DatabaseStorage.getTradeReview (DatabaseStorage.deleteTradeReview storeC10 1).1 1 = none
    ∧ (∀ a b : ℤ, DatabaseStorage.getTradingStats (DatabaseStorage.deleteTradeReview storeC10 1).1 a b
        = DatabaseStorage.tradingStatsOf
            ((DatabaseStorage.getTradeReviews storeC10 a b).filter (fun t => ¬ t.id = 1))) :=
  claim10_hardDelete storeC10 1
